import Mathlib

/-!
Verification development for the morphoviewer-node SWC parsing and
morphology-reconstruction core.

The development shallowly embeds the vendored JavaScript sources:
  - swcmorphologyparser/src/SwcParser.js        (point table parser)
  - swcmorphologyparser/src/TreeNode.js          (node graph)
  - swcmorphologyparser/src/TreeNodeCollection.js (graph builder, section
    reconstruction, morphology assembly)
  - morphologycorejs/src/Soma.js, Section.js, Morphology.js (domain model)

Modelling conventions:
  - JavaScript numbers are modelled as exact rationals; NaN is modelled as
    "none" in the point-table layer where parseFloat can fail.  Binary f64
    rounding is not modelled; every value manipulated by the claims is exact.
  - JavaScript exceptions (TypeError on property access of undefined or null)
    are modelled with Except.
  - The two genuinely partial pieces of the source, the loop of
    TreeNode.getNonSomaChildren whose index variable is never incremented and
    the recursion of TreeNode.dive, are modelled with an explicit fuel
    parameter; "none" means the computation does not finish within the fuel.
  - JavaScript object maps are modelled as association lists with
    insert-or-overwrite-in-place semantics, object references between nodes
    and sections as arena indices and section ids.
-/

set_option maxRecDepth 4096

namespace MorphoViewer

/-! ## JavaScript primitives -/

/-- Errors thrown by the embedded JavaScript: property access on an
undefined or null value. -/
inductive JsError where
  | typeError
  deriving DecidableEq, Repr

/-- Whitespace characters recognised by JavaScript regex white space and
by String.prototype.trim (the subset that can occur in text files). -/
def isJsSpace (c : Char) : Bool :=
  c = ' ' || c = '\t' || c = '\n' || c = '\r' || c = '\x0b' || c = '\x0c'

/-- JavaScript String.prototype.trim on a character list. -/
def jsTrim (l : List Char) : List Char :=
  ((l.dropWhile isJsSpace).reverse.dropWhile isJsSpace).reverse

/-- Math.round, which rounds half-way cases toward positive infinity:
Math.round q = the floor of (q + 1/2), computed here on the numerator and
denominator so that it evaluates by pure integer arithmetic. -/
def jsRound (q : ℚ) : Int :=
  Int.fdiv (2 * q.num + (q.den : Int)) (2 * (q.den : Int))

/-- Math.max over a list of already-collected values (the source spreads a
nonempty array into Math.max); on the empty list JavaScript would give
negative infinity, which never occurs at the call site. -/
def jsMaxList (l : List ℚ) : ℚ :=
  match l with
  | [] => 0
  | x :: xs => xs.foldl max x

/-- Assignment "arr[i] = v" on a JavaScript array holding only writes at
integer indices: writing past the end pads the gap with holes (undefined)
and extends the length to i + 1. -/
def jsArraySet {α : Type} (arr : List (Option α)) (i : Nat) (v : α) :
    List (Option α) :=
  if i < arr.length then arr.set i (some v)
  else arr ++ List.replicate (i - arr.length) none ++ [some v]

/-- Lookup in a JavaScript object used as a map (association list,
first match; keys are unique because insertion overwrites in place). -/
def jsObjGet {κ α : Type} [DecidableEq κ] (m : List (κ × α)) (k : κ) :
    Option α :=
  match m with
  | [] => none
  | (k', v) :: rest => if k = k' then some v else jsObjGet rest k

/-- Membership test "k in obj" on a JavaScript object used as a map. -/
def jsObjHas {κ α : Type} [DecidableEq κ] (m : List (κ × α)) (k : κ) : Bool :=
  match m with
  | [] => false
  | (k', _) :: rest => k = k' || jsObjHas rest k

/-- Assignment "obj[k] = v" on a JavaScript object used as a map: an
existing key keeps its position, a new key is appended. -/
def jsObjSet {κ α : Type} [DecidableEq κ] (m : List (κ × α)) (k : κ) (v : α) :
    List (κ × α) :=
  match m with
  | [] => [(k, v)]
  | (k', v') :: rest =>
    if k = k' then (k', v) :: rest else (k', v') :: jsObjSet rest k v

/-- In-place update of a list element, used for arena mutation. -/
def updateAt {α : Type} (l : List α) (i : Nat) (f : α → α) : List α :=
  match l, i with
  | [], _ => []
  | x :: xs, 0 => f x :: xs
  | x :: xs, n + 1 => x :: updateAt xs n f

/-! ## Point table parser (SwcParser.extractPoints) -/

/-- Skip-to-end-of-line state machine implementing the comment-stripping
replace of extractPoints: the regex deletes, for every "#", the run of
whitespace immediately before it (which may span preceding newlines), the
"#" itself and the rest of that line, keeping the line's final newline.
The pending argument holds the whitespace run read so far, the Bool is
true while skipping a comment body. -/
def stripCommentsGo (pending : List Char) (skipping : Bool) :
    List Char → List Char
  | [] => if skipping then [] else pending
  | c :: cs =>
    if skipping then
      if c = '\n' then stripCommentsGo ['\n'] false cs
      else stripCommentsGo pending true cs
    else
      if c = '#' then stripCommentsGo [] true cs
      else if isJsSpace c then stripCommentsGo (pending ++ [c]) false cs
      else pending ++ c :: stripCommentsGo [] false cs

/-- Comment removal of extractPoints. -/
def stripComments (l : List Char) : List Char :=
  stripCommentsGo [] false l

/-- String.prototype.split on a newline character. -/
def splitOnNl : List Char → List (List Char)
  | [] => [[]]
  | c :: cs =>
    if c = '\n' then [] :: splitOnNl cs
    else
      match splitOnNl cs with
      | [] => [[c]]
      | l :: ls => (c :: l) :: ls

/-- Rejoin lines with newlines (inverse of splitOnNl on hole-free input). -/
def joinNl : List (List Char) → List Char
  | [] => []
  | [l] => l
  | l :: ls => l ++ '\n' :: joinNl ls

/-- The blank-line replace of extractPoints: a line consisting only of
whitespace has its content deleted; the newlines themselves survive, so
the line count is unchanged. -/
def clearBlankLines (l : List Char) : List Char :=
  joinNl ((splitOnNl l).map (fun line => if line.all isJsSpace then [] else line))

/-- Separator class of the per-line split regex: runs of whitespace or
commas. -/
def isSepChar (c : Char) : Bool := isJsSpace c || c = ','

/-- String.prototype.split on runs of separators: adjacent separators
count as one, a leading or trailing separator produces an empty token.
The mode is some cur while a token cur is being built and none while
inside a separator run. -/
def splitSepGo (mode : Option (List Char)) : List Char → List (List Char)
  | [] =>
    match mode with
    | some cur => [cur]
    | none => [[]]
  | c :: cs =>
    match mode with
    | some cur =>
      if isSepChar c then cur :: splitSepGo none cs
      else splitSepGo (some (cur ++ [c])) cs
    | none =>
      if isSepChar c then splitSepGo none cs
      else splitSepGo (some [c]) cs

/-- Tokenise one line as the source does: trim it, then split on runs of
whitespace and commas. -/
def splitRow (line : List Char) : List (List Char) :=
  splitSepGo (some []) (jsTrim line)

/-- Numeric value of a digit string. -/
def digitsVal (l : List Char) : Nat :=
  l.foldl (fun a c => a * 10 + (c.toNat - '0'.toNat)) 0

/-- JavaScript parseFloat on the decimal-numeral fragment: longest prefix
of the form sign, integer digits, optional fraction, optional exponent
with at least one digit; none models NaN (no digit at all).  The special
spellings Infinity and binary f64 rounding are not modelled; every numeral
appearing in the claims is exact. -/
def parseFloatQ (tok : List Char) : Option ℚ :=
  let t := tok.dropWhile isJsSpace
  let signed : Bool × List Char :=
    match t with
    | '-' :: r => (true, r)
    | '+' :: r => (false, r)
    | _ => (false, t)
  let sign := signed.1
  let t1 := signed.2
  let ip := t1.takeWhile Char.isDigit
  let r1 := t1.dropWhile Char.isDigit
  let fpr : List Char × List Char :=
    match r1 with
    | '.' :: r => (r.takeWhile Char.isDigit, r.dropWhile Char.isDigit)
    | _ => ([], r1)
  let fp := fpr.1
  let r2 := fpr.2
  if ip = [] ∧ fp = [] then none
  else
    let ed : Bool × List Char :=
      match r2 with
      | 'e' :: '-' :: r => (true, r.takeWhile Char.isDigit)
      | 'e' :: '+' :: r => (false, r.takeWhile Char.isDigit)
      | 'e' :: r => (false, r.takeWhile Char.isDigit)
      | 'E' :: '-' :: r => (true, r.takeWhile Char.isDigit)
      | 'E' :: '+' :: r => (false, r.takeWhile Char.isDigit)
      | 'E' :: r => (false, r.takeWhile Char.isDigit)
      | _ => (false, [])
    let e : Int :=
      if ed.2 = [] then 0
      else if ed.1 then -(digitsVal ed.2 : Int) else (digitsVal ed.2 : Int)
    let mantissa : Int :=
      (if sign then -1 else 1) *
        ((digitsVal ip * 10 ^ fp.length + digitsVal fp : Nat) : Int)
    let num : Int := mantissa * (10 : Int) ^ (max e 0).toNat
    let den : Nat := 10 ^ fp.length * 10 ^ (max (-e) 0).toNat
    some (mkRat num den)

/-- One parsed row of the SWC point table, fields in file order; a none
field is a NaN produced by parseFloat on an unparseable token. -/
structure SwcPoint where
  id : Option Int
  typ : Option Int
  x : Option ℚ
  y : Option ℚ
  z : Option ℚ
  radius : Option ℚ
  parentId : Option Int
  deriving DecidableEq, Repr

/-- Parse one line of the cleaned text: accepted only when it yields at
least 7 tokens, with fields read positionally (integers via Math.round of
parseFloat). -/
def parseLine (line : List Char) : Option SwcPoint :=
  let row := splitRow line
  if 7 ≤ row.length then
    some
      { id := (parseFloatQ (row.getD 0 [])).map jsRound
        typ := (parseFloatQ (row.getD 1 [])).map jsRound
        x := parseFloatQ (row.getD 2 [])
        y := parseFloatQ (row.getD 3 [])
        z := parseFloatQ (row.getD 4 [])
        radius := parseFloatQ (row.getD 5 [])
        parentId := (parseFloatQ (row.getD 6 [])).map jsRound }
  else none

/-- SwcParser.extractPoints: strip comments, trim, blank out whitespace-only
lines, split into lines, and for each accepted line i write the parsed
point at index i of the result array.  A rejected line is skipped, which
leaves a hole (undefined entry) at its index whenever a later line is
accepted. -/
def extractPoints (s : String) : List (Option SwcPoint) :=
  let cleaned := clearBlankLines (jsTrim (stripComments s.data))
  let lines := splitOnNl cleaned
  (List.range lines.length).foldl
    (fun arr i =>
      match parseLine (lines.getD i []) with
      | some p => jsArraySet arr i p
      | none => arr)
    []

/-! ## Node graph (TreeNode.js and TreeNodeCollection._initCollection) -/

/-- SWC structure type code of the soma (Constants.js: SWC_TYPES.SOMA). -/
def SWC_SOMA : Int := 1

/-- A point record of the graph layer, as described by the data model:
integer id, type and parent id, rational coordinates and radius.
parentId equal to -1 denotes a root. -/
structure RawPoint where
  id : Int
  typ : Int
  x : ℚ
  y : ℚ
  z : ℚ
  radius : ℚ
  parentId : Int
  deriving DecidableEq, Repr

/-- A TreeNode: one node per point record.  The parent reference and the
child references are arena indices into the node arena of the collection
(object references in the source). -/
structure TreeNode where
  id : Int
  typ : Int
  position : ℚ × ℚ × ℚ
  radius : ℚ
  parent : Option Nat
  children : List Nat
  hasSomaChildren : Bool
  deriving DecidableEq, Repr

instance : Inhabited TreeNode :=
  ⟨{ id := 0, typ := 0, position := (0, 0, 0), radius := 0,
     parent := none, children := [], hasSomaChildren := false }⟩

/-- The node arena: nodes in creation order, mutated in place. -/
abbrev Arena := List TreeNode

/-- Dereference an arena index (never out of range on indices produced by
the construction, see the invariants below). -/
def nodeAt (a : Arena) (i : Nat) : TreeNode :=
  List.getD a i default

/-- TreeNode.isSoma. -/
def nodeIsSoma (n : TreeNode) : Bool := n.typ = SWC_SOMA

/-- TreeNode.doesAlreadyHaveChild: compares candidate children by id. -/
def doesAlreadyHaveChild (a : Arena) (n : TreeNode) (cIdx : Nat) : Bool :=
  n.children.any (fun j => (nodeAt a j).id = (nodeAt a cIdx).id)

/-- TreeNode._addChild on the node stored at index pIdx: push the child
index unless a child with the same id is already present, and in that case
also update the has-soma-children flag. -/
def addChild (a : Arena) (pIdx cIdx : Nat) : Arena :=
  if doesAlreadyHaveChild a (nodeAt a pIdx) cIdx then a
  else
    updateAt a pIdx (fun p =>
      { p with
        children := p.children ++ [cIdx]
        hasSomaChildren := nodeIsSoma (nodeAt a cIdx) || p.hasSomaChildren })

/-- State threaded through the point loop of _initCollection. -/
structure InitState where
  arena : Arena
  nodes : List (Int × Nat)
  somaIdx : List Nat
  deriving Repr

/-- One iteration of the point loop of _initCollection: create and
register the node, collect it when soma-typed, then link it to its parent.
Accessing a hole of the sparse point array (undefined) or looking up an
unregistered parent id (setParent on undefined calls _addChild on it)
throws a TypeError. -/
def initStep (st : InitState) (p? : Option RawPoint) :
    Except JsError InitState :=
  match p? with
  | none => .error .typeError
  | some p =>
    let node : TreeNode :=
      { id := p.id, typ := p.typ, position := (p.x, p.y, p.z),
        radius := p.radius, parent := none, children := [],
        hasSomaChildren := false }
    let idx := st.arena.length
    let arena1 := st.arena ++ [node]
    let nodes1 := jsObjSet st.nodes p.id idx
    let soma1 := if p.typ = SWC_SOMA then st.somaIdx ++ [idx] else st.somaIdx
    if p.parentId = -1 then
      .ok { arena := arena1, nodes := nodes1, somaIdx := soma1 }
    else
      match jsObjGet nodes1 p.parentId with
      | none => .error .typeError
      | some pIdx =>
        let arena2 := updateAt arena1 idx (fun n => { n with parent := some pIdx })
        let arena3 := addChild arena2 pIdx idx
        .ok { arena := arena3, nodes := nodes1, somaIdx := soma1 }

/-- The raw soma record synthesized at the end of _initCollection. -/
structure RawSoma where
  id : Int
  radius : ℚ
  points : List (ℚ × ℚ × ℚ)
  deriving DecidableEq, Repr

/-- Result of _initCollection: the node arena, the id-keyed node map and
the optional raw soma. -/
structure Collection where
  arena : Arena
  nodes : List (Int × Nat)
  rawSoma : Option RawSoma
  deriving Repr

/-- TreeNodeCollection._initCollection: fold the point loop, then build
the raw soma when at least one soma-typed node was collected, with the
largest observed radius and the soma points in encounter order. -/
def initCollection (points : List (Option RawPoint)) :
    Except JsError Collection := do
  let st ← points.foldlM initStep
    { arena := [], nodes := [], somaIdx := [] }
  let rawSoma :=
    if st.somaIdx = [] then none
    else
      some
        { id := 0
          radius := jsMaxList (st.somaIdx.map (fun i => (nodeAt st.arena i).radius))
          points := st.somaIdx.map (fun i => (nodeAt st.arena i).position) }
  return { arena := st.arena, nodes := st.nodes, rawSoma := rawSoma }

/-! ## getNonSomaChildren and dive (TreeNode.js) -/

/-- The collecting loop of TreeNode.getNonSomaChildren, exactly as in the
source: for (let i = 0; i < children.length; i += 0) — the index is
incremented by zero, so one fuel unit is spent per executed iteration and
the loop finishes only when the guard fails at entry. -/
def nonSomaLoop (a : Arena) (children acc : List Nat) (i : Nat) :
    Nat → Option (List Nat)
  | 0 => if i < children.length then none else some acc
  | fuel + 1 =>
    if i < children.length then
      let c := children.getD i 0
      let acc1 := if nodeIsSoma (nodeAt a c) then acc else acc ++ [c]
      nonSomaLoop a children acc1 (i + 0) fuel
    else some acc

/-- TreeNode.getNonSomaChildren: without the has-soma-children flag the
children are returned directly; otherwise the collecting loop runs. -/
def getNonSomaChildren (a : Arena) (n : TreeNode) (fuel : Nat) :
    Option (List Nat) :=
  if n.hasSomaChildren then nonSomaLoop a n.children [] 0 fuel
  else some n.children

/-- TreeNode.dive: push the current node on the list; when there is
exactly one non-soma child of the same type continue on it, with one
child of a different type stop yielding nothing (warn-and-truncate),
otherwise stop yielding the children (leaf or fork). -/
def dive (a : Arena) (idx : Nat) (nl : List Nat) : Nat → Option (List Nat × List Nat)
  | 0 => none
  | fuel + 1 =>
    let nl1 := nl ++ [idx]
    match getNonSomaChildren a (nodeAt a idx) fuel with
    | none => none
    | some children =>
      if children.length = 1 then
        let c := children.getD 0 0
        if (nodeAt a c).typ = (nodeAt a idx).typ then dive a c nl1 fuel
        else some (nl1, [])
      else some (nl1, children)

/-! ## Section reconstruction (TreeNodeCollection._buildSections) -/

/-- A raw section as assembled by buildRawSection: a point is a position
paired with a radius; children and parent are section ids, the parent
being none for root-level sections. -/
structure RawSection where
  typevalue : Int
  points : List ((ℚ × ℚ × ℚ) × ℚ)
  id : Nat
  children : List Nat
  parent : Option Nat
  deriving DecidableEq, Repr

instance : Inhabited RawSection :=
  ⟨{ typevalue := 0, points := [], id := 0, children := [], parent := none }⟩

/-- A work-stack entry: the starting node of the future section and the id
of its parent section (none at root level). -/
structure Entry where
  node : Nat
  parentSectionId : Option Nat
  deriving DecidableEq, Repr

/-- Zero the radius of the first point, for root-level sections whose
first point is the soma attachment. -/
def zeroHeadRadius : List ((ℚ × ℚ × ℚ) × ℚ) → List ((ℚ × ℚ × ℚ) × ℚ)
  | [] => []
  | (pos, _) :: rest => (pos, 0) :: rest

/-- The seeding of the node list in buildRawSection: the starting node's
parent when it has one. -/
def buildSeed (a : Arena) (startIdx : Nat) : List Nat :=
  match (nodeAt a startIdx).parent with
  | some p => [p]
  | none => []

/-- The section record assembled by buildRawSection from the dived node
list: (position, radius) pairs, with the first radius zeroed on a
root-level section, the starting node's type, the requested id and parent
section id and no children yet. -/
def mkRawSection (a : Arena) (startIdx : Nat) (psid : Option Nat)
    (currentId : Nat) (nl : List Nat) : RawSection :=
  let pts := nl.map (fun i => ((nodeAt a i).position, (nodeAt a i).radius))
  { typevalue := (nodeAt a startIdx).typ
    points := if psid = none then zeroHeadRadius pts else pts
    id := currentId
    children := []
    parent := psid }

/-- The body of buildRawSection up to the parent registration: seed the
node list with the starting node's parent when it has one, dive, then
assemble the section.  Returns the section together with the yielded fork
directions. -/
def buildRawSection (a : Arena) (startIdx : Nat) (psid : Option Nat)
    (currentId : Nat) (fuel : Nat) : Option (RawSection × List Nat) :=
  match dive a startIdx (buildSeed a startIdx) fuel with
  | none => none
  | some (nl, next) => some (mkRawSection a startIdx psid currentId nl, next)

/-- The parent registration of buildRawSection, with the truthiness test
of the source: "if (parentSectionId)" is false both for null and for the
legitimate section id 0, so only a parent with nonzero id receives the new
child. -/
def registerChild (sections : List RawSection) : Option Nat → Nat → List RawSection
  | some p, childId =>
    if p ≠ 0 then
      updateAt sections p (fun s => { s with children := s.children ++ [childId] })
    else sections
  | none, _ => sections

/-- The work-stack loop of _buildSections.  The JavaScript stack pushes
and pops at the array end; here the head of the list is the stack top, so
pushing the yielded nodes in order corresponds to prepending them
reversed.  Returns the section list and the next section id; none means
the fuel ran out or a dive diverged. -/
def sectionsLoop (a : Arena) :
    List Entry → Nat → List RawSection → Nat → Option (List RawSection × Nat)
  | [], n, secs, _ => some (secs, n)
  | _ :: _, _, _, 0 => none
  | e :: rest, n, secs, fuel + 1 =>
    match buildRawSection a e.node e.parentSectionId n fuel with
    | none => none
    | some (sec, next) =>
      sectionsLoop a
        (((next.map (fun i => Entry.mk i (some n))).reverse) ++ rest)
        (n + 1)
        (registerChild secs e.parentSectionId n ++ [sec])
        fuel

/-- Whether an integer id stringifies to a JavaScript array index (such
keys are enumerated first, in ascending order, by Object.keys). -/
def isArrayIndexKey (k : Int) : Bool :=
  0 ≤ k && k < (2 : Int) ^ 32 - 1

/-- Insertion sort on integers, used to model the ascending enumeration of
array-index keys. -/
def insertSorted (x : Int) : List Int → List Int
  | [] => [x]
  | y :: ys => if x ≤ y then x :: y :: ys else y :: insertSorted x ys

/-- Sort a list of integers ascending. -/
def sortInts (l : List Int) : List Int :=
  l.foldr insertSorted []

/-- Object.keys on the node map: array-index keys ascending first, then
the remaining keys in insertion order. -/
def objectKeys (m : List (Int × Nat)) : List Int :=
  sortInts ((m.filter (fun e => isArrayIndexKey e.1)).map (·.1)) ++
    (m.filter (fun e => ¬ isArrayIndexKey e.1)).map (·.1)

/-- The scan of _buildSections for the first node (in Object.keys order)
owning at least one non-soma child.  The outer none is a diverging
getNonSomaChildren call; the inner none means no valid node exists. -/
def findFirstValid (c : Collection) (fuel : Nat) :
    List Int → Option (Option (Nat × List Nat))
  | [] => some none
  | k :: ks =>
    let idx := (jsObjGet c.nodes k).getD 0
    match getNonSomaChildren c.arena (nodeAt c.arena idx) fuel with
    | none => none
    | some [] => findFirstValid c fuel ks
    | some children => some (some (idx, children))

/-- TreeNodeCollection._buildSections: locate the entry node, seed the
stack with one root-level entry per non-soma child of it, run the loop.
The outer none is divergence; the inner none is the _rawSections field
remaining null (no valid section, or an empty result). -/
def buildSections (c : Collection) (fuel : Nat) :
    Option (Option (List RawSection)) :=
  match findFirstValid c fuel (objectKeys c.nodes) with
  | none => none
  | some none => some none
  | some (some (_, children)) =>
    match sectionsLoop c.arena
        ((children.map (fun i => Entry.mk i none)).reverse) 0 [] fuel with
    | none => none
    | some (sections, _) =>
      some (if sections = [] then none else some sections)

/-! ## Soma (morphologycorejs/src/Soma.js) -/

/-- A Soma instance after initWithRawSection: id, points and radius copied
from the raw soma record. -/
structure Soma where
  id : Int
  points : List (ℚ × ℚ × ℚ)
  radius : ℚ
  deriving DecidableEq, Repr

/-- Soma.initWithRawSection on a non-null raw soma. -/
def somaInit (raw : RawSoma) : Soma :=
  { id := raw.id, points := raw.points, radius := raw.radius }

/-- Soma.getCenter: the single point when there is exactly one, the
componentwise average when there are several, null when there are none. -/
def somaGetCenter (s : Soma) : Option (ℚ × ℚ × ℚ) :=
  let nbPoints := s.points.length
  if nbPoints = 1 then some (s.points.getD 0 (0, 0, 0))
  else if 1 < nbPoints then
    let sum := s.points.foldl
      (fun acc p => (acc.1 + p.1, acc.2.1 + p.2.1, acc.2.2 + p.2.2))
      ((0 : ℚ), (0 : ℚ), (0 : ℚ))
    some (sum.1 / (nbPoints : ℚ), sum.2.1 / (nbPoints : ℚ),
      sum.2.2 / (nbPoints : ℚ))
  else none

/-- The arithmetic mean of a list of points, written from the
specification's words ("the arithmetic mean of all soma points") to be
compared with the average computed by somaGetCenter. -/
def centroid (ps : List (ℚ × ℚ × ℚ)) : ℚ × ℚ × ℚ :=
  ((ps.map (·.1)).sum / (ps.length : ℚ),
   (ps.map (·.2.1)).sum / (ps.length : ℚ),
   (ps.map (·.2.2)).sum / (ps.length : ℚ))

/-! ## Morphology model (morphologycorejs: Section.js and Morphology.js) -/

/-- TYPEVALUE_2_TYPENAME of Section.js (codes 0 to 5). -/
def typevalueToTypename (tv : Int) : Option String :=
  if tv = 0 then some "undefined"
  else if tv = 1 then some "soma"
  else if tv = 2 then some "axon"
  else if tv = 3 then some "basal_dendrite"
  else if tv = 4 then some "apical_dendrite"
  else if tv = 5 then some "custom"
  else none

/-- A Section instance of the morphology model.  Parent and children are
stored as section ids (object references in the source). -/
structure MSection where
  id : Nat
  parent : Option Nat
  children : List Nat
  typename : Option String
  typevalue : Option Int
  points : List (ℚ × ℚ × ℚ)
  radiuses : List ℚ
  deriving DecidableEq, Repr

/-- Section.initWithRawSection on a raw section of the reconstruction
pipeline (whose typename field is always null): points and radii are
split apart; the typename and typevalue are filled in only when the guard
"rawSection.typename or rawSection.typevalue" is truthy, so a raw
typevalue of 0 leaves both fields null. -/
def msectionInit (raw : RawSection) : MSection :=
  { id := raw.id
    parent := none
    children := []
    typename := if raw.typevalue ≠ 0 then typevalueToTypename raw.typevalue else none
    typevalue := if raw.typevalue ≠ 0 then some raw.typevalue else none
    points := raw.points.map (·.1)
    radiuses := raw.points.map (·.2) }

/-- A Morphology instance: the id-keyed section storage and the optional
soma.  The lazily cached special-section subsets are not modelled; no
claim mentions them. -/
structure Morphology where
  sections : List (Nat × MSection)
  soma : Option Soma
  deriving DecidableEq, Repr

/-- Section.setParent: refuses an undefined parent or a parent with the
same id (warn and return false), otherwise records the parent. -/
def msectionSetParent (s : MSection) (parent? : Option MSection) : MSection :=
  match parent? with
  | some p => if p.id ≠ s.id then { s with parent := some p.id } else s
  | none => s

/-- Section.addChild on a section already looked up (a lookup that
produced undefined has already thrown in the caller): records the child id
unless it is the section itself or already present. -/
def msectionAddChild (s : MSection) (c : MSection) : MSection :=
  if c.id ≠ s.id then
    if s.children.contains c.id then s
    else { s with children := s.children ++ [c.id] }
  else s

/-- The linking pass of Morphology.buildFromRawMorphology for one raw
section: look up the current section (present by construction), link its
parent when the raw parent id is not null — a parent id of 0 passes this
test, the source comments that 0 and null differ — and then add every
child; mapping a child id absent from the storage gives undefined, and
addChild throws on it. -/
def linkStep (store : List (Nat × MSection)) (raw : RawSection) :
    Except JsError (List (Nat × MSection)) := do
  match jsObjGet store raw.id with
  | none => .error .typeError
  | some current =>
    let current1 :=
      match raw.parent with
      | some p => msectionSetParent current (jsObjGet store p)
      | none => current
    let store1 := jsObjSet store raw.id current1
    raw.children.foldlM
      (fun st cId => do
        match jsObjGet st cId with
        | none => .error .typeError
        | some child =>
          match jsObjGet st raw.id with
          | none => .error .typeError
          | some cur => .ok (jsObjSet st raw.id (msectionAddChild cur child)))
      store1

/-- Morphology.buildFromRawMorphology: build the soma when raw soma data
is present, then iterate over rawMorphology.sections — reading the length
of a null sections field throws a TypeError — first creating all Section
instances, then linking parents and children. -/
def buildFromRawMorphology (soma? : Option RawSoma)
    (sections? : Option (List RawSection)) : Except JsError Morphology := do
  let soma := soma?.map somaInit
  match sections? with
  | none => .error .typeError
  | some raws =>
    let store := raws.foldl
      (fun st raw => jsObjSet st (msectionInit raw).id (msectionInit raw)) []
    let store ← raws.foldlM linkStep store
    return { sections := store, soma := soma }

/-- Morphology.getSection: the section stored under the id when the id is
a key of the storage, null otherwise. -/
def getSection (m : Morphology) (id : Nat) : Option MSection :=
  if jsObjHas m.sections id then jsObjGet m.sections id else none

/-! ## The whole parse (SwcParser.parse on the graph layer) -/

/-- TreeNodeCollection._buildMorphologyObjects followed by the getters of
SwcParser: with neither sections nor soma the morphology stays null (a
diagnostic, not an exception); otherwise the morphology is built from the
raw morphology.  The outer none is divergence of the section
reconstruction. -/
def parseMorphology (points : List (Option RawPoint)) (fuel : Nat) :
    Option (Except JsError (Option Morphology)) :=
  match initCollection points with
  | .error e => some (.error e)
  | .ok c =>
    match buildSections c fuel with
    | none => none
    | some rawSections =>
      if rawSections = none ∧ c.rawSoma = none then some (.ok none)
      else
        match buildFromRawMorphology c.rawSoma rawSections with
        | .error e => some (.error e)
        | .ok m => some (.ok (some m))

/-! ## Invariants used by the reconstruction proofs -/

/-- The fields of a raw section other than its (mutable) children list:
id, type, points and parent. -/
def sectionCore (s : RawSection) :
    Nat × Int × List ((ℚ × ℚ × ℚ) × ℚ) × Option Nat :=
  (s.id, s.typevalue, s.points, s.parent)

/-- Well-formedness of the node arena: every child reference is in range
and the referenced child holds the owner as its parent (in the source a
child is only ever added through setParent, which records the parent
reference on the child first). -/
def arenaInv (a : Arena) : Prop :=
  ∀ i, i < a.length → ∀ j ∈ (nodeAt a i).children,
    j < a.length ∧ (nodeAt a j).parent = some i

/-- Invariant of a work-stack entry: its node is in range and has a tree
parent, and when the entry carries a parent section id, that section
exists and its last point is the entry's tree parent's position and
radius — the geometric continuity carried from a fork to its children. -/
def entryInv (a : Arena) (secs : List RawSection) (e : Entry) : Prop :=
  e.node < a.length ∧ ∃ par, par < a.length ∧
    (nodeAt a e.node).parent = some par ∧
    ∀ p, e.parentSectionId = some p → p < secs.length ∧
      (secs.getD p default).points.getLast? =
        some ((nodeAt a par).position, (nodeAt a par).radius)

/-- The continuity invariant of the built sections: a section that
records a parent section starts exactly where the parent section ends. -/
def secInv (secs : List RawSection) : Prop :=
  ∀ k, k < secs.length → ∀ p, (secs.getD k default).parent = some p →
    p < secs.length ∧
      (secs.getD k default).points.head? = (secs.getD p default).points.getLast?

/-! ## Decidability helpers and concrete inputs used by the claims -/

instance {ε α : Type} [DecidableEq ε] [DecidableEq α] : DecidableEq (Except ε α) :=
  fun x y =>
    match x, y with
    | .error a, .error b =>
      if h : a = b then .isTrue (by rw [h]) else .isFalse (by simp [h])
    | .error _, .ok _ => .isFalse (by simp)
    | .ok _, .error _ => .isFalse (by simp)
    | .ok a, .ok b =>
      if h : a = b then .isTrue (by rw [h]) else .isFalse (by simp [h])

instance : DecidableEq Collection := fun x y =>
  match x, y with
  | ⟨a, n, s⟩, ⟨a', n', s'⟩ =>
    if h : a = a' ∧ n = n' ∧ s = s' then
      .isTrue (by cases x; simp_all)
    else .isFalse (by simp_all)

/-- The single-point soma input of the claims: one soma point with no
parent, radius 5, at the origin. -/
def somaOnlyPts : List (Option RawPoint) := [some ⟨1, 1, 0, 0, 0, 5, -1⟩]

/-- A chain of two soma points: the root soma point and a soma child, the
smallest input on which a node owns a soma-typed child. -/
def somaChainPts : List (Option RawPoint) :=
  [some ⟨1, 1, 0, 0, 0, 1, -1⟩, some ⟨2, 1, 0, 0, 1, 1, 1⟩]

/-- A fork: one soma root, one axon node, and two axon children of that
axon node.  The axon node's section receives id 0 and spawns two child
sections. -/
def forkPts : List (Option RawPoint) :=
  [some ⟨1, 1, 0, 0, 0, 1, -1⟩, some ⟨2, 2, 1, 0, 0, 1, 1⟩,
   some ⟨3, 2, 2, 0, 0, 1, 2⟩, some ⟨4, 2, 2, 1, 0, 1, 2⟩]

/-- The collection built from the fork input. -/
def forkCol : Collection :=
  { arena :=
      [{ id := 1, typ := 1, position := (0, 0, 0), radius := 1,
         parent := none, children := [1], hasSomaChildren := false },
       { id := 2, typ := 2, position := (1, 0, 0), radius := 1,
         parent := some 0, children := [2, 3], hasSomaChildren := false },
       { id := 3, typ := 2, position := (2, 0, 0), radius := 1,
         parent := some 1, children := [], hasSomaChildren := false },
       { id := 4, typ := 2, position := (2, 1, 0), radius := 1,
         parent := some 1, children := [], hasSomaChildren := false }]
    nodes := [(1, 0), (2, 1), (3, 2), (4, 3)]
    rawSoma := some { id := 0, radius := 1, points := [(0, 0, 0)] } }

/-- One soma root followed by an unbranched chain of four axon points. -/
def chainPts : List (Option RawPoint) :=
  [some ⟨1, 1, 0, 0, 0, 5, -1⟩, some ⟨2, 2, 1, 0, 0, 1, 1⟩,
   some ⟨3, 2, 2, 0, 0, 1, 2⟩, some ⟨4, 2, 3, 0, 0, 1, 3⟩,
   some ⟨5, 2, 4, 0, 0, 1, 4⟩]

/-- A single point whose parent id equals its own id: the id matches no
earlier record, yet the node finds itself in the registry (the source
registers a node before resolving its parent) and becomes its own parent. -/
def selfParentPts : List (Option RawPoint) := [some ⟨5, 2, 0, 0, 0, 1, 5⟩]

/-- A record whose parent id 7 matches no registered node at all. -/
def badParentPts : List (Option RawPoint) :=
  [some ⟨1, 1, 0, 0, 0, 5, -1⟩, some ⟨2, 2, 0, 0, 0, 1, 7⟩]

/-- Two soma points used to exercise the soma radius and center synthesis. -/
def twoSomaRaw : List RawPoint :=
  [⟨1, 1, 0, 0, 0, 5, -1⟩, ⟨2, 1, 2, 2, 2, 3, 1⟩]

/-- The collection built from the two soma points. -/
def twoSomaCol : Collection :=
  { arena :=
      [{ id := 1, typ := 1, position := (0, 0, 0), radius := 5,
         parent := none, children := [1], hasSomaChildren := true },
       { id := 2, typ := 1, position := (2, 2, 2), radius := 3,
         parent := some 0, children := [], hasSomaChildren := false }]
    nodes := [(1, 0), (2, 1)]
    rawSoma := some { id := 0, radius := 5, points := [(0, 0, 0), (2, 2, 2)] } }

/-- The text input exhibiting a dropped line between two accepted lines:
its second line yields a single token. -/
def holeText : String := "1 1 0 0 0 5 -1\nx\n2 2 1 0 0 1 1"

/-! ## Concrete values computed by the pipeline on the claim inputs -/

/-- The concrete collection built from the two-point soma chain. -/
def somaChainCol : Collection :=
  { arena :=
      [{ id := 1, typ := 1, position := (0, 0, 0), radius := 1,
         parent := none, children := [1], hasSomaChildren := true },
       { id := 2, typ := 1, position := (0, 0, 1), radius := 1,
         parent := some 0, children := [], hasSomaChildren := false }]
    nodes := [(1, 0), (2, 1)]
    rawSoma := some { id := 0, radius := 1, points := [(0, 0, 0), (0, 0, 1)] } }

/-- The three sections reconstructed from the fork input: the axon section
with id 0 and its two child sections. -/
def forkSections : List RawSection :=
  [{ typevalue := 2, points := [((0, 0, 0), 0), ((1, 0, 0), 1)], id := 0,
     children := [], parent := none },
   { typevalue := 2, points := [((1, 0, 0), 1), ((2, 1, 0), 1)], id := 1,
     children := [], parent := some 0 },
   { typevalue := 2, points := [((1, 0, 0), 1), ((2, 0, 0), 1)], id := 2,
     children := [], parent := some 0 }]

/-- The single section reconstructed from the soma-rooted axon chain. -/
def chainSection : RawSection :=
  { typevalue := 2
    points := [((0, 0, 0), 0), ((1, 0, 0), 1), ((2, 0, 0), 1),
               ((3, 0, 0), 1), ((4, 0, 0), 1)]
    id := 0
    children := []
    parent := none }

/-- The arena built from the self-parent point: the node is its own
parent and its own child. -/
def spArena : Arena :=
  [{ id := 5, typ := 2, position := (0, 0, 0), radius := 1,
     parent := some 0, children := [0], hasSomaChildren := false }]

/-- The collection built from the self-parent point. -/
def spCol : Collection :=
  { arena := spArena, nodes := [(5, 0)], rawSoma := none }

/-- The raw point list behind badParentPts. -/
def badParentRaw : List RawPoint :=
  [{ id := 1, typ := 1, x := 0, y := 0, z := 0, radius := 5, parentId := -1 },
   { id := 2, typ := 2, x := 0, y := 0, z := 0, radius := 1, parentId := 7 }]

/-- A one-section morphology used to witness C5. -/
def c5Morph : Morphology :=
  { sections :=
      [(0, { id := 0, parent := none, children := [], typename := some "axon",
             typevalue := some 2, points := [(0, 0, 0)], radiuses := [1] })]
    soma := none }

/-- The soma-typed records of a point list, in order. -/
def somaPts (pts : List RawPoint) : List RawPoint :=
  pts.filter (fun p => p.typ = SWC_SOMA)

/-! ## Lemmas on getNonSomaChildren -/

/-- The collecting loop never terminates once entered: its index is
incremented by zero, so the guard that held at entry holds forever. -/
theorem nonSomaLoop_div (a : Arena) (ch : List Nat) :
    ∀ (fuel : Nat) (acc : List Nat) (i : Nat), i < ch.length →
      nonSomaLoop a ch acc i fuel = none := by
  intro fuel
  induction fuel with
  | zero => intro acc i h; simp [nonSomaLoop, h]
  | succ n ih =>
    intro acc i h
    simp only [nonSomaLoop, if_pos h]
    exact ih _ _ (by simpa using h)

/-- Full characterization of getNonSomaChildren: the fast path returns the
children, the slow path returns the empty list when there is nothing to
iterate over and diverges otherwise, at every fuel. -/
theorem getNonSomaChildren_char (a : Arena) (n : TreeNode) (fuel : Nat) :
    getNonSomaChildren a n fuel =
      if n.hasSomaChildren then
        (if n.children = [] then some [] else none)
      else some n.children := by
  unfold getNonSomaChildren
  cases h : n.hasSomaChildren with
  | false => simp
  | true =>
    simp only [if_true]
    by_cases hc : n.children = []
    · rw [hc]
      cases fuel <;> simp [nonSomaLoop]
    · rw [if_neg hc]
      exact nonSomaLoop_div a n.children fuel [] 0 (List.length_pos.mpr hc)

/-- A successful getNonSomaChildren yields either the full child list or
nothing at all; in particular the yield is a sublist of the children. -/
theorem getNonSomaChildren_sub (a : Arena) (n : TreeNode) (fuel : Nat)
    (l : List Nat) (h : getNonSomaChildren a n fuel = some l) :
    ∀ x ∈ l, x ∈ n.children := by
  rw [getNonSomaChildren_char] at h
  by_cases h1 : n.hasSomaChildren <;> simp [h1] at h
  · rcases h with ⟨-, h⟩
    subst h
    intro x hx
    cases hx
  · subst h
    intro x hx
    exact hx

/-- The result of getNonSomaChildren does not depend on the fuel. -/
theorem getNonSomaChildren_fuel (a : Arena) (n : TreeNode) (f g : Nat) :
    getNonSomaChildren a n f = getNonSomaChildren a n g := by
  rw [getNonSomaChildren_char, getNonSomaChildren_char]

/-! ## Claim C1 -/

/-- C1: For the single input point (1,1,0,0,0,5,-1) the collection gets a
raw soma with radius 5 and center (0,0,0), the reconstruction produces no
sections — and the parse then fails with a TypeError instead of
completing non-fatally, because buildFromRawMorphology reads the length
of the null sections field.  This refutes the claim that such a parse
completes with an empty section list: the source contradicts its own
comment that a missing section list is acceptable. -/
theorem c1_soma_only_parse_throws :
    (∀ fuel, parseMorphology somaOnlyPts fuel = some (.error .typeError)) ∧
      (∃ c, initCollection somaOnlyPts = .ok c ∧
        c.rawSoma = some { id := 0, radius := 5, points := [(0, 0, 0)] } ∧
        somaGetCenter (somaInit { id := 0, radius := 5, points := [(0, 0, 0)] }) =
          some (0, 0, 0)) := by
  constructor
  · intro fuel
    rfl
  · exact ⟨_, rfl, by decide, by decide⟩

/-! ## Claim C2 -/

/-- C2: the parse does not terminate on a chain of two soma points: the
root owns a soma-typed child, so the section scan calls the collecting
loop of getNonSomaChildren, whose index is never incremented.  At every
fuel the parse is still running, refuting the claim that every parse runs
to completion or fails fast. -/
theorem c2_soma_child_parse_diverges :
    ∀ fuel, parseMorphology somaChainPts fuel = none := by
  intro fuel
  have hcol : initCollection somaChainPts = .ok somaChainCol := by decide
  have hg : getNonSomaChildren somaChainCol.arena
      (nodeAt somaChainCol.arena ((jsObjGet somaChainCol.nodes 1).getD 0)) fuel = none := by
    rw [getNonSomaChildren_char]
    decide
  have hffv : findFirstValid somaChainCol fuel [1, 2] = none := by
    simp only [findFirstValid, hg]
  have hkeys : objectKeys somaChainCol.nodes = [1, 2] := by decide
  have hbs : buildSections somaChainCol fuel = none := by
    simp only [buildSections, hkeys, hffv]
  simp only [parseMorphology, hcol, hbs]

/-! ## Claim C3 -/

/-- C3: a non-comment line with fewer than 7 tokens does not vanish from
the output: because the parser writes accepted points at their line index,
the dropped middle line leaves a hole (an undefined entry) in the returned
array, and the collection builder then throws a TypeError on that hole.
This refutes the claim that such a line contributes nothing and causes no
error. -/
theorem c3_short_line_leaves_hole :
    extractPoints holeText =
      [some { id := some 1, typ := some 1, x := some 0, y := some 0,
              z := some 0, radius := some 5, parentId := some (-1) },
       none,
       some { id := some 2, typ := some 2, x := some 1, y := some 0,
              z := some 0, radius := some 1, parentId := some 1 }] ∧
      initCollection
        [some { id := 1, typ := 1, x := 0, y := 0, z := 0, radius := 5,
                parentId := -1 },
         none,
         some { id := 2, typ := 2, x := 1, y := 0, z := 0, radius := 1,
                parentId := 1 }] = .error .typeError := by
  constructor
  · decide
  · decide

/-! ## Claim C4 -/

/-- C4: on the fork input the sections with ids 1 and 2 both record the
parent section id 0, yet the children list of section 0 stays empty: the
truthiness test "if (parentSectionId)" of the source is false for the
legitimate id 0, so the registration is skipped.  This refutes the claim
that every section with a parent is appended to the parent's children
list. -/
theorem c4_parent_zero_children_lost :
    ∃ c, initCollection forkPts = .ok c ∧
      buildSections c 100 = some (some forkSections) ∧
      (forkSections.getD 1 default).parent = some 0 ∧
      (forkSections.getD 2 default).parent = some 0 ∧
      (forkSections.getD 0 default).children = [] := by
  exact ⟨_, rfl, by decide, by decide, by decide, by decide⟩

/-! ## Claim C8 -/

/-- C8: the soma-rooted unbranched chain of four axon points yields
exactly one section, of axon type, with five points — the soma-boundary
continuity point first, its radius reset to 0, followed by the four axon
points — with no parent section and no child sections. -/
theorem c8_unbranched_chain_single_section :
    ∃ c, initCollection chainPts = .ok c ∧
      buildSections c 100 = some (some [chainSection]) ∧
      chainSection.typevalue = 2 ∧
      chainSection.points.length = 5 ∧
      chainSection.points.getD 0 default = ((0, 0, 0), 0) ∧
      (chainSection.points.drop 1).map (fun p => p.2) = [1, 1, 1, 1] ∧
      chainSection.parent = none ∧
      chainSection.children = [] := by
  refine ⟨_, rfl, by decide, by decide, by decide, by decide, by decide,
    by decide, by decide⟩

/-! ## Claim C7: lemmas on the object map and the point-loop fold -/

theorem jsObjGet_none {κ α : Type} [DecidableEq κ] (m : List (κ × α)) (k : κ)
    (h : ∀ e ∈ m, e.1 ≠ k) : jsObjGet m k = none := by
  induction m with
  | nil => rfl
  | cons e rest ih =>
    obtain ⟨k', v⟩ := e
    have hk : k ≠ k' := fun hkk => h (k', v) (by simp) (by simpa using hkk.symm)
    simp only [jsObjGet, if_neg hk]
    exact ih fun e he => h e (by simp [he])

theorem mem_jsObjSet {κ α : Type} [DecidableEq κ] (m : List (κ × α))
    (k : κ) (v : α) (e : κ × α) (h : e ∈ jsObjSet m k v) :
    e = (k, v) ∨ e ∈ m := by
  induction m with
  | nil =>
    simp [jsObjSet] at h
    subst h
    exact Or.inl rfl
  | cons e0 rest ih =>
    obtain ⟨k', v'⟩ := e0
    by_cases hk : k = k'
    · simp only [jsObjSet, if_pos hk] at h
      rcases List.mem_cons.mp h with h | h
      · subst h
        subst hk
        exact Or.inl rfl
      · exact Or.inr (List.mem_cons_of_mem _ h)
    · simp only [jsObjSet, if_neg hk] at h
      rcases List.mem_cons.mp h with h | h
      · subst h
        exact Or.inr (List.mem_cons_self _ _)
      · rcases ih h with h | h
        · exact Or.inl h
        · exact Or.inr (List.mem_cons_of_mem _ h)

/-- Looking up a key that is neither the freshly written key nor a key of
the original map gives undefined. -/
theorem jsObjGet_set_none {κ α : Type} [DecidableEq κ] (m : List (κ × α))
    (k target : κ) (v : α) (h1 : target ≠ k) (h2 : ∀ e ∈ m, e.1 ≠ target) :
    jsObjGet (jsObjSet m k v) target = none := by
  apply jsObjGet_none
  intro e he
  rcases mem_jsObjSet m k v e he with h | h
  · rw [h]
    exact fun hc => h1 hc.symm
  · exact h2 e h

/-- The node registry after one successful point iteration: the point's id
is written over the registry of the previous state. -/
theorem initStep_nodes (st : InitState) (p : RawPoint) (st' : InitState)
    (h : initStep st (some p) = .ok st') :
    st'.nodes = jsObjSet st.nodes p.id st.arena.length := by
  simp only [initStep] at h
  by_cases hp : p.parentId = -1
  · rw [if_pos hp] at h
    cases h
    rfl
  · rw [if_neg hp] at h
    cases hl : jsObjGet (jsObjSet st.nodes p.id st.arena.length) p.parentId with
    | none => rw [hl] at h; cases h
    | some pIdx => rw [hl] at h; cases h; rfl

/-- A point whose parent id is neither -1 nor a key of the registry after
self-registration makes the iteration throw. -/
theorem initStep_err (st : InitState) (p : RawPoint)
    (hp : p.parentId ≠ -1)
    (hl : jsObjGet (jsObjSet st.nodes p.id st.arena.length) p.parentId = none) :
    initStep st (some p) = .error .typeError := by
  simp only [initStep]
  rw [if_neg hp, hl]

/-- The point loop fails with a TypeError whenever some record's parent id
is not -1 and matches neither a key already in the registry nor the id of
any record up to and including itself. -/
theorem initFold_err (pts : List RawPoint) :
    ∀ (st : InitState) (i : Nat) (hi : i < pts.length),
    (pts.get ⟨i, hi⟩).parentId ≠ -1 →
    (∀ e ∈ st.nodes, e.1 ≠ (pts.get ⟨i, hi⟩).parentId) →
    (∀ (j : Nat) (hj : j ≤ i),
      (pts.get ⟨j, lt_of_le_of_lt hj hi⟩).id ≠ (pts.get ⟨i, hi⟩).parentId) →
    List.foldlM initStep st (pts.map some) = .error .typeError := by
  induction pts with
  | nil =>
    intro st i hi
    exact absurd hi (by simp)
  | cons p rest ih =>
    intro st i hi hroot hreg hids
    match i with
    | 0 =>
      have hstep : initStep st (some p) = .error .typeError := by
        apply initStep_err st p hroot
        apply jsObjGet_set_none
        · exact fun hc => hids 0 (le_refl 0) hc.symm
        · exact hreg
      simp only [List.map, List.foldlM, hstep]
      rfl
    | j + 1 =>
      have hj : j < rest.length := by simpa using Nat.lt_of_succ_lt_succ hi
      cases hstep : initStep st (some p) with
      | error e =>
        cases e
        simp only [List.map, List.foldlM, hstep]
        rfl
      | ok st' =>
        have htail := ih st' j hj
          (by simpa using hroot)
          (by
            intro e he
            rw [initStep_nodes st p st' hstep] at he
            rcases mem_jsObjSet _ _ _ _ he with h | h
            · rw [h]
              have := hids 0 (Nat.zero_le _)
              simpa using this
            · have := hreg e h
              simpa using this)
          (by
            intro j' hj'
            have := hids (j' + 1) (Nat.succ_le_succ hj')
            simpa using this)
        simp only [List.map, List.foldlM, hstep]
        simpa using htail

/-- C7 (amended): whenever a record's parent id is not -1 and matches
neither the id of an earlier record nor the record's own id, the whole
parse fails with a TypeError — construction failure propagated to the
caller, so no morphology is produced at any fuel. -/
theorem c7_unregistered_parent_fatal (pts : List RawPoint) (i : Nat)
    (hi : i < pts.length)
    (hroot : (pts.get ⟨i, hi⟩).parentId ≠ -1)
    (hids : ∀ (j : Nat) (hj : j ≤ i),
      (pts.get ⟨j, lt_of_le_of_lt hj hi⟩).id ≠ (pts.get ⟨i, hi⟩).parentId) :
    ∀ fuel, parseMorphology (pts.map some) fuel = some (.error .typeError) := by
  have hfold := initFold_err pts ⟨[], [], []⟩ i hi hroot (by intro e he; cases he) hids
  have hinit : initCollection (pts.map some) = .error .typeError := by
    unfold initCollection
    rw [hfold]
    rfl
  intro fuel
  simp only [parseMorphology, hinit]

/-- Diving from the self-parent node never terminates: its single
non-soma child of the same type is the node itself. -/
theorem dive_sp : ∀ (fuel : Nat) (nl : List Nat),
    dive spArena 0 nl fuel = none := by
  intro fuel
  induction fuel with
  | zero => intro nl; rfl
  | succ n ih =>
    intro nl
    have hg : getNonSomaChildren spArena (nodeAt spArena 0) n = some [0] := by
      rw [getNonSomaChildren_char]
      decide
    simp only [dive, hg]
    simpa using ih (nl ++ [0])

/-- The whole parse of the self-parent point diverges at every fuel. -/
theorem sp_parse_diverges :
    ∀ fuel, parseMorphology selfParentPts fuel = none := by
  intro fuel
  have hcol : initCollection selfParentPts = .ok spCol := by decide
  have hbrs : ∀ m, buildRawSection spArena 0 none 0 m = none := by
    intro m
    unfold buildRawSection
    simp only [dive_sp]
  have hsl : ∀ m, sectionsLoop spArena [Entry.mk 0 none] 0 [] m = none := by
    intro m
    cases m with
    | zero => rfl
    | succ k => simp only [sectionsLoop, hbrs]
  have hbs : buildSections spCol fuel = none := by
    unfold buildSections
    rw [show findFirstValid spCol fuel (objectKeys spCol.nodes) =
      some (some (0, [0])) from rfl]
    simp only [spCol, List.map_cons, List.map_nil, List.reverse_cons,
      List.reverse_nil, List.nil_append]
    rw [hsl fuel]
  simp only [parseMorphology, hcol, hbs]

/-- C7 counterexample: the record (5,2,0,0,0,1,5) has parent id 5, which
matches no earlier record — yet graph construction succeeds, because the
source registers a node before resolving its parent, so the node becomes
its own parent; the section reconstruction then recurses on the one-node
cycle and the parse neither completes nor propagates any failure at any
fuel. -/
theorem c7_self_parent_not_fatal :
    (∃ c, initCollection selfParentPts = .ok c) ∧
      (∀ fuel, parseMorphology selfParentPts fuel = none) :=
  ⟨⟨spCol, by decide⟩, sp_parse_diverges⟩

/-- Witness for the amended C7 at the concrete input whose second record
references the unregistered parent id 7. -/
theorem c7_unregistered_parent_fatal_witness :
    parseMorphology (badParentRaw.map some) 3 = some (.error .typeError) :=
  c7_unregistered_parent_fatal badParentRaw 1 (by decide) (by decide)
    (by decide) 3

/-! ## Claim C5 -/

theorem jsObjHas_of_get_some {κ α : Type} [DecidableEq κ]
    (m : List (κ × α)) (k : κ) (v : α) (h : jsObjGet m k = some v) :
    jsObjHas m k = true := by
  induction m with
  | nil => exact absurd h (by simp [jsObjGet])
  | cons e rest ih =>
    obtain ⟨k', v'⟩ := e
    by_cases hk : k = k'
    · simp [jsObjHas, hk]
    · simp only [jsObjGet, if_neg hk] at h
      simp [jsObjHas, hk, ih h]

theorem jsObjHas_false_of_not_mem {κ α : Type} [DecidableEq κ]
    (m : List (κ × α)) (k : κ) (h : k ∉ m.map (·.1)) :
    jsObjHas m k = false := by
  induction m with
  | nil => rfl
  | cons e rest ih =>
    obtain ⟨k', v'⟩ := e
    simp only [List.map, List.mem_cons, not_or] at h
    simp [jsObjHas, h.1, ih h.2]

/-- C5: looking a section up by id in the morphology's storage returns
null (the NotFound outcome) exactly on ids that are not keys of the
storage, and the stored section on ids that are. -/
theorem c5_getSection_notFound_or_stored (m : Morphology) (id : Nat) :
    (id ∉ m.sections.map (·.1) → getSection m id = none) ∧
      (∀ s, jsObjGet m.sections id = some s → getSection m id = some s) := by
  constructor
  · intro h
    unfold getSection
    rw [jsObjHas_false_of_not_mem m.sections id h]
    simp
  · intro s h
    unfold getSection
    rw [jsObjHas_of_get_some m.sections id s h]
    simpa using h

/-- Witness for C5: on the concrete one-section morphology, id 1 is
absent and yields null, id 0 is present and yields the stored section. -/
theorem c5_getSection_notFound_or_stored_witness :
    getSection c5Morph 1 = none ∧
      getSection c5Morph 0 =
        some { id := 0, parent := none, children := [], typename := some "axon",
               typevalue := some 2, points := [(0, 0, 0)], radiuses := [1] } :=
  ⟨(c5_getSection_notFound_or_stored c5Morph 1).1 (by decide),
   (c5_getSection_notFound_or_stored c5Morph 0).2 _ (by decide)⟩

/-! ## Arena update lemmas -/

theorem length_updateAt {α : Type} (l : List α) (i : Nat) (f : α → α) :
    (updateAt l i f).length = l.length := by
  induction l generalizing i with
  | nil => rfl
  | cons x xs ih =>
    cases i with
    | zero => rfl
    | succ n => simpa [updateAt] using ih n

theorem getD_updateAt_ne {α : Type} (l : List α) (i k : Nat) (f : α → α)
    (d : α) (h : i ≠ k) : (updateAt l i f).getD k d = l.getD k d := by
  induction l generalizing i k with
  | nil => rfl
  | cons x xs ih =>
    cases i with
    | zero =>
      cases k with
      | zero => exact absurd rfl h
      | succ m => rfl
    | succ n =>
      cases k with
      | zero => rfl
      | succ m =>
        simpa [updateAt, List.getD] using ih n m (fun hc => h (by rw [hc]))

theorem getD_append_left {α : Type} (l l' : List α) (k : Nat) (d : α)
    (h : k < l.length) : (l ++ l').getD k d = l.getD k d := by
  induction l generalizing k with
  | nil => exact absurd h (by simp)
  | cons x xs ih =>
    cases k with
    | zero => rfl
    | succ m => simpa [List.getD] using ih m (by simpa using h)

theorem getD_append_length {α : Type} (l : List α) (x : α) (d : α) :
    (l ++ [x]).getD l.length d = x := by
  induction l with
  | nil => rfl
  | cons y ys ih => simp [List.getD, ih]

/-! ## Claim C9: the soma synthesis -/

/-- An update past the end of the list is a no-op. -/
theorem updateAt_out {α : Type} (l : List α) (i : Nat) (f : α → α)
    (h : l.length ≤ i) : updateAt l i f = l := by
  induction l generalizing i with
  | nil => rfl
  | cons x xs ih =>
    cases i with
    | zero => exact absurd h (by simp)
    | succ n =>
      simp only [updateAt]
      rw [ih n (by simpa using h)]

theorem getD_updateAt_self {α : Type} (l : List α) (i : Nat) (f : α → α)
    (d : α) (h : i < l.length) :
    (updateAt l i f).getD i d = f (l.getD i d) := by
  induction l generalizing i with
  | nil => exact absurd h (by simp)
  | cons x xs ih =>
    cases i with
    | zero => rfl
    | succ n => simpa [updateAt, List.getD] using ih n (by simpa using h)

theorem nodeAt_append_left (a a' : Arena) (k : Nat) (h : k < a.length) :
    nodeAt (a ++ a') k = nodeAt a k := by
  unfold nodeAt
  exact getD_append_left a a' k default h

theorem nodeAt_append_length (a : Arena) (x : TreeNode) :
    nodeAt (a ++ [x]) a.length = x := by
  unfold nodeAt
  exact getD_append_length a x default

/-- Updates that keep the radius and position fields keep them at every
arena slot. -/
theorem nodeAt_updateAt_pres (a : Arena) (i k : Nat) (f : TreeNode → TreeNode)
    (hf : ∀ n, (f n).radius = n.radius ∧ (f n).position = n.position) :
    (nodeAt (updateAt a i f) k).radius = (nodeAt a k).radius ∧
      (nodeAt (updateAt a i f) k).position = (nodeAt a k).position := by
  by_cases hik : i = k
  · subst hik
    by_cases hl : i < a.length
    · unfold nodeAt
      rw [getD_updateAt_self a i f default hl]
      exact hf _
    · rw [updateAt_out a i f (le_of_not_lt hl)]
      exact ⟨rfl, rfl⟩
  · unfold nodeAt
    rw [getD_updateAt_ne a i k f default hik]
    exact ⟨rfl, rfl⟩

theorem nodeAt_addChild_pres (a : Arena) (pIdx cIdx k : Nat) :
    (nodeAt (addChild a pIdx cIdx) k).radius = (nodeAt a k).radius ∧
      (nodeAt (addChild a pIdx cIdx) k).position = (nodeAt a k).position := by
  unfold addChild
  by_cases hd : doesAlreadyHaveChild a (nodeAt a pIdx) cIdx
  · rw [if_pos hd]
    exact ⟨rfl, rfl⟩
  · rw [if_neg hd]
    exact nodeAt_updateAt_pres a pIdx k _ (fun n => ⟨rfl, rfl⟩)

theorem length_addChild (a : Arena) (pIdx cIdx : Nat) :
    (addChild a pIdx cIdx).length = a.length := by
  unfold addChild
  by_cases hd : doesAlreadyHaveChild a (nodeAt a pIdx) cIdx
  · rw [if_pos hd]
  · rw [if_neg hd]
    exact length_updateAt a pIdx _

/-- What one successful iteration of the point loop does to the fields
that the soma synthesis reads: the arena grows by the new node, radii and
positions of existing nodes are untouched (the mutations of setParent and
_addChild only rewrite parent, children and the soma flag), and the soma
collection gains the new index exactly on a soma-typed record. -/
theorem initStep_preserves (st : InitState) (p : RawPoint) (st1 : InitState)
    (h : initStep st (some p) = .ok st1) :
    st1.arena.length = st.arena.length + 1 ∧
      (∀ k, k < st.arena.length →
        (nodeAt st1.arena k).radius = (nodeAt st.arena k).radius ∧
        (nodeAt st1.arena k).position = (nodeAt st.arena k).position) ∧
      (nodeAt st1.arena st.arena.length).radius = p.radius ∧
      (nodeAt st1.arena st.arena.length).position = (p.x, p.y, p.z) ∧
      st1.somaIdx = st.somaIdx ++
        (if p.typ = SWC_SOMA then [st.arena.length] else []) ∧
      st1.nodes = jsObjSet st.nodes p.id st.arena.length := by
  have hnodes := initStep_nodes st p st1 h
  simp only [initStep] at h
  by_cases hp : p.parentId = -1
  · rw [if_pos hp] at h
    cases h
    refine ⟨by simp, ?_, ?_, ?_, ?_, hnodes⟩
    · intro k hk
      rw [nodeAt_append_left st.arena _ k hk]
      exact ⟨rfl, rfl⟩
    · rw [nodeAt_append_length]
    · rw [nodeAt_append_length]
    · by_cases ht : p.typ = SWC_SOMA <;> simp [ht]
  · rw [if_neg hp] at h
    cases hl : jsObjGet (jsObjSet st.nodes p.id st.arena.length) p.parentId with
    | none => rw [hl] at h; cases h
    | some pIdx =>
      rw [hl] at h
      cases h
      have hpres : ∀ k,
          (nodeAt (addChild (updateAt (st.arena ++
              [{ id := p.id, typ := p.typ, position := (p.x, p.y, p.z),
                 radius := p.radius, parent := none, children := [],
                 hasSomaChildren := false }]) st.arena.length
              (fun n => { n with parent := some pIdx })) pIdx
              st.arena.length) k).radius =
            (nodeAt (st.arena ++
              [{ id := p.id, typ := p.typ, position := (p.x, p.y, p.z),
                 radius := p.radius, parent := none, children := [],
                 hasSomaChildren := false }]) k).radius ∧
          (nodeAt (addChild (updateAt (st.arena ++
              [{ id := p.id, typ := p.typ, position := (p.x, p.y, p.z),
                 radius := p.radius, parent := none, children := [],
                 hasSomaChildren := false }]) st.arena.length
              (fun n => { n with parent := some pIdx })) pIdx
              st.arena.length) k).position =
            (nodeAt (st.arena ++
              [{ id := p.id, typ := p.typ, position := (p.x, p.y, p.z),
                 radius := p.radius, parent := none, children := [],
                 hasSomaChildren := false }]) k).position := by
        intro k
        have h1 := nodeAt_addChild_pres (updateAt (st.arena ++
          [{ id := p.id, typ := p.typ, position := (p.x, p.y, p.z),
             radius := p.radius, parent := none, children := [],
             hasSomaChildren := false }])
          st.arena.length (fun n => { n with parent := some pIdx })) pIdx
          st.arena.length k
        have h2 := nodeAt_updateAt_pres (st.arena ++
          [{ id := p.id, typ := p.typ, position := (p.x, p.y, p.z),
             radius := p.radius, parent := none, children := [],
             hasSomaChildren := false }]) st.arena.length k
          (fun n => { n with parent := some pIdx }) (fun n => ⟨rfl, rfl⟩)
        exact ⟨h1.1.trans h2.1, h1.2.trans h2.2⟩
      refine ⟨?_, ?_, ?_, ?_, ?_, hnodes⟩
      · simp only [length_addChild, length_updateAt]
        simp
      · intro k hk
        refine ⟨(hpres k).1.trans ?_, (hpres k).2.trans ?_⟩
        · rw [nodeAt_append_left st.arena _ k hk]
        · rw [nodeAt_append_left st.arena _ k hk]
      · exact (hpres _).1.trans (by rw [nodeAt_append_length])
      · exact (hpres _).2.trans (by rw [nodeAt_append_length])
      · by_cases ht : p.typ = SWC_SOMA <;> simp [ht]

/-- Through the whole point loop, the soma indices collected are exactly
the soma-typed records in encounter order, and they dereference to those
records' radii and positions. -/
theorem initFold_soma (pts : List RawPoint) :
    ∀ (st st' : InitState), (∀ i ∈ st.somaIdx, i < st.arena.length) →
    List.foldlM initStep st (pts.map some) = .ok st' →
    (∀ i ∈ st'.somaIdx, i < st'.arena.length) ∧
      st'.somaIdx.map (fun i => (nodeAt st'.arena i).radius) =
        st.somaIdx.map (fun i => (nodeAt st.arena i).radius) ++
          (somaPts pts).map (·.radius) ∧
      st'.somaIdx.map (fun i => (nodeAt st'.arena i).position) =
        st.somaIdx.map (fun i => (nodeAt st.arena i).position) ++
          (somaPts pts).map (fun p => (p.x, p.y, p.z)) := by
  induction pts with
  | nil =>
    intro st st' hb h
    simp only [List.map, List.foldlM] at h
    cases h
    exact ⟨hb, by simp [somaPts], by simp [somaPts]⟩
  | cons p rest ih =>
    intro st st' hb h
    simp only [List.map, List.foldlM] at h
    cases hstep : initStep st (some p) with
    | error e => rw [hstep] at h; cases h
    | ok st1 =>
      rw [hstep] at h
      obtain ⟨hlen, hold, hrad, hpos, hsoma, -⟩ :=
        initStep_preserves st p st1 hstep
      have hb1 : ∀ i ∈ st1.somaIdx, i < st1.arena.length := by
        intro i hi
        rw [hsoma] at hi
        rw [hlen]
        rcases List.mem_append.mp hi with hi | hi
        · exact lt_trans (hb i hi) (Nat.lt_succ_self _)
        · by_cases ht : p.typ = SWC_SOMA
          · rw [if_pos ht] at hi
            simp only [List.mem_singleton] at hi
            omega
          · rw [if_neg ht] at hi
            exact absurd hi (List.not_mem_nil i)
      obtain ⟨hb', hr', hp'⟩ := ih st1 st' hb1 h
      have hcr : st.somaIdx.map (fun i => (nodeAt st1.arena i).radius) =
          st.somaIdx.map (fun i => (nodeAt st.arena i).radius) :=
        List.map_congr_left (fun i hi => (hold i (hb i hi)).1)
      have hcp : st.somaIdx.map (fun i => (nodeAt st1.arena i).position) =
          st.somaIdx.map (fun i => (nodeAt st.arena i).position) :=
        List.map_congr_left (fun i hi => (hold i (hb i hi)).2)
      refine ⟨hb', ?_, ?_⟩
      · rw [hr', hsoma]
        by_cases ht : p.typ = SWC_SOMA
        · have hsp : somaPts (p :: rest) = p :: somaPts rest := by
            simp [somaPts, List.filter_cons, ht]
          rw [if_pos ht, hsp, List.map_append, hcr]
          simp only [List.map_cons, List.map_nil]
          rw [hrad, List.append_assoc]
          simp
        · have hsp : somaPts (p :: rest) = somaPts rest := by
            simp [somaPts, List.filter_cons, ht]
          rw [if_neg ht, hsp, List.append_nil, hcr]
      · rw [hp', hsoma]
        by_cases ht : p.typ = SWC_SOMA
        · have hsp : somaPts (p :: rest) = p :: somaPts rest := by
            simp [somaPts, List.filter_cons, ht]
          rw [if_pos ht, hsp, List.map_append, hcp]
          simp only [List.map_cons, List.map_nil]
          rw [hpos, List.append_assoc]
          simp
        · have hsp : somaPts (p :: rest) = somaPts rest := by
            simp [somaPts, List.filter_cons, ht]
          rw [if_neg ht, hsp, List.append_nil, hcp]

/-- The left fold of max starting at x is one of x or the list elements. -/
theorem foldl_max_mem (xs : List ℚ) : ∀ x, xs.foldl max x ∈ x :: xs := by
  induction xs with
  | nil => intro x; simp
  | cons y ys ih =>
    intro x
    simp only [List.foldl]
    rcases List.mem_cons.mp (ih (max x y)) with h | h
    · rcases max_choice x y with hm | hm <;> rw [hm] at h ⊢ <;> simp [h]
    · simp [h]

/-- The left fold of max bounds x and every list element. -/
theorem foldl_max_le (xs : List ℚ) :
    ∀ x z, z ∈ x :: xs → z ≤ xs.foldl max x := by
  induction xs with
  | nil =>
    intro x z hz
    simp only [List.mem_singleton] at hz
    simp [hz]
  | cons y ys ih =>
    intro x z hz
    simp only [List.foldl]
    rcases List.mem_cons.mp hz with hz | hz
    · subst hz
      exact le_trans (le_max_left z y) (ih (max z y) _ (by simp))
    · rcases List.mem_cons.mp hz with hz | hz
      · subst hz
        exact le_trans (le_max_right x z) (ih (max x z) _ (by simp))
      · exact ih (max x y) z (by simp [hz])

/-- The fold of max over a nonempty list is a member of the list. -/
theorem jsMaxList_mem (l : List ℚ) (h : l ≠ []) : jsMaxList l ∈ l := by
  match l with
  | x :: xs => exact foldl_max_mem xs x

/-- Every element of the list is bounded by the fold of max. -/
theorem jsMaxList_le (l : List ℚ) : ∀ x ∈ l, x ≤ jsMaxList l := by
  match l with
  | [] => intro x hx; cases hx
  | x :: xs => intro z hz; exact foldl_max_le xs x z hz

/-- The accumulating triple fold of somaGetCenter computes the
componentwise sums. -/
theorem foldl_add3 (ps : List (ℚ × ℚ × ℚ)) :
    ∀ (a b c : ℚ),
      ps.foldl (fun acc p => (acc.1 + p.1, acc.2.1 + p.2.1, acc.2.2 + p.2.2))
        (a, b, c) =
        (a + (ps.map (·.1)).sum, b + (ps.map (·.2.1)).sum,
          c + (ps.map (·.2.2)).sum) := by
  induction ps with
  | nil => intro a b c; simp
  | cons p rest ih =>
    intro a b c
    simp only [List.foldl, List.map, List.sum_cons]
    rw [ih]
    refine congrArg₂ Prod.mk ?_ (congrArg₂ Prod.mk ?_ ?_) <;> ring

/-- On two or more points, somaGetCenter returns the centroid. -/
theorem somaGetCenter_centroid (s : Soma) (h : 2 ≤ s.points.length) :
    somaGetCenter s = some (centroid s.points) := by
  unfold somaGetCenter
  rw [if_neg (by omega), if_pos (by omega)]
  rw [foldl_add3]
  unfold centroid
  simp

/-- On exactly one point, somaGetCenter returns that point. -/
theorem somaGetCenter_single (s : Soma) (p : ℚ × ℚ × ℚ)
    (h : s.points = [p]) : somaGetCenter s = some p := by
  unfold somaGetCenter
  rw [h]
  simp

/-- C9: when the input contains at least one soma-typed record and the
graph construction succeeds, the synthesized soma record's radius is the
maximum radius among the soma-typed records, its points are their
positions in encounter order, and the derived center is the single soma
point when exactly one exists and the centroid of all soma points
otherwise. -/
theorem c9_soma_radius_and_center (pts : List RawPoint) (c : Collection)
    (hok : initCollection (pts.map some) = .ok c)
    (hsome : somaPts pts ≠ []) :
    ∃ s, c.rawSoma = some s ∧
      s.radius ∈ (somaPts pts).map (·.radius) ∧
      (∀ r ∈ (somaPts pts).map (·.radius), r ≤ s.radius) ∧
      s.points = (somaPts pts).map (fun p => (p.x, p.y, p.z)) ∧
      (∀ p0, somaPts pts = [p0] →
        somaGetCenter (somaInit s) = some (p0.x, p0.y, p0.z)) ∧
      (2 ≤ (somaPts pts).length →
        somaGetCenter (somaInit s) = some (centroid s.points)) := by
  unfold initCollection at hok
  cases hfold : List.foldlM initStep
      { arena := [], nodes := [], somaIdx := [] } (pts.map some) with
  | error e =>
    rw [hfold] at hok
    cases hok
  | ok st =>
    rw [hfold] at hok
    obtain ⟨-, hrad, hpos⟩ := initFold_soma pts _ st (by intro i hi; cases hi) hfold
    simp only [List.map_nil, List.nil_append] at hrad hpos
    have hsIdx : st.somaIdx ≠ [] := by
      intro hc
      rw [hc] at hrad
      simp only [List.map_nil] at hrad
      exact hsome (List.map_eq_nil_iff.mp hrad.symm)
    simp only [bind, Except.bind, pure, Except.pure] at hok
    rw [if_neg hsIdx] at hok
    cases hok
    refine ⟨_, rfl, ?_, ?_, ?_, ?_, ?_⟩
    · rw [hrad]
      exact jsMaxList_mem _ (by
        intro hc
        exact hsome (List.map_eq_nil_iff.mp hc))
    · intro r hr
      rw [← hrad] at hr
      exact jsMaxList_le _ r hr
    · exact hpos
    · intro p0 h0
      apply somaGetCenter_single
      show st.somaIdx.map (fun i => (nodeAt st.arena i).position) = _
      rw [hpos, h0]
      rfl
    · intro h2
      apply somaGetCenter_centroid
      show 2 ≤ (st.somaIdx.map (fun i => (nodeAt st.arena i).position)).length
      rw [hpos]
      simpa using h2

/-- Witness for C9: two soma points with radii 5 and 3 at the origin and
at (2,2,2) give soma radius 5 and center (1,1,1). -/
theorem c9_soma_radius_and_center_witness :
    ∃ s, (twoSomaCol).rawSoma = some s ∧
      s.radius = 5 ∧ somaGetCenter (somaInit s) = some (1, 1, 1) := by
  obtain ⟨s, hs, hmem, hle, hpts, -, hcen⟩ :=
    c9_soma_radius_and_center twoSomaRaw twoSomaCol (by decide) (by decide)
  refine ⟨s, hs, ?_, ?_⟩
  · have h5 : (5 : ℚ) ∈ (somaPts twoSomaRaw).map (·.radius) := by decide
    have := hle 5 h5
    have hmem' : s.radius = 5 ∨ s.radius = 3 := by
      have : (somaPts twoSomaRaw).map (·.radius) = [5, 3] := by decide
      rw [this] at hmem
      simpa using hmem
    rcases hmem' with h | h
    · exact h
    · rw [h] at this
      norm_num at this
  · rw [hcen (by decide), hpts]
    have : centroid ((somaPts twoSomaRaw).map (fun p => (p.x, p.y, p.z))) =
        (1, 1, 1) := by
      have heq : (somaPts twoSomaRaw).map (fun p => (p.x, p.y, p.z)) =
          [(0, 0, 0), (2, 2, 2)] := by decide
      rw [heq]
      unfold centroid
      norm_num
    rw [this]

/-! ## Metatheory of the work-stack loop -/

/-- Fuel monotonicity of dive. -/
theorem dive_mono (a : Arena) :
    ∀ (fuel : Nat) (idx : Nat) (nl : List Nat) (r : List Nat × List Nat),
      dive a idx nl fuel = some r → dive a idx nl (fuel + 1) = some r := by
  intro fuel
  induction fuel with
  | zero =>
    intro idx nl r h
    rw [show dive a idx nl 0 = none from rfl] at h
    cases h
  | succ k ih =>
    intro idx nl r h
    simp only [dive] at h ⊢
    rw [getNonSomaChildren_fuel a (nodeAt a idx) (k + 1) k]
    cases hg : getNonSomaChildren a (nodeAt a idx) k with
    | none => rw [hg] at h; cases h
    | some children =>
      simp only [hg] at h ⊢
      by_cases hone : children.length = 1
      · rw [if_pos hone] at h ⊢
        by_cases ht : (nodeAt a (children.getD 0 0)).typ = (nodeAt a idx).typ
        · rw [if_pos ht] at h ⊢
          exact ih _ _ r h
        · rw [if_neg ht] at h ⊢
          exact h
      · rw [if_neg hone] at h ⊢
        exact h

/-- Fuel monotonicity of buildRawSection. -/
theorem buildRawSection_mono (a : Arena) (startIdx : Nat) (psid : Option Nat)
    (currentId fuel : Nat) (r : RawSection × List Nat)
    (h : buildRawSection a startIdx psid currentId fuel = some r) :
    buildRawSection a startIdx psid currentId (fuel + 1) = some r := by
  unfold buildRawSection at h ⊢
  cases hd : dive a startIdx (buildSeed a startIdx) fuel with
  | none => rw [hd] at h; cases h
  | some pr =>
    rw [hd] at h
    rw [dive_mono a fuel _ _ _ hd]
    exact h

/-- Fuel monotonicity of the work-stack loop. -/
theorem sectionsLoop_mono (a : Arena) :
    ∀ (fuel : Nat) (st : List Entry) (n : Nat) (secs : List RawSection)
      (r : List RawSection × Nat),
      sectionsLoop a st n secs fuel = some r →
      sectionsLoop a st n secs (fuel + 1) = some r := by
  intro fuel
  induction fuel with
  | zero =>
    intro st n secs r h
    cases st with
    | nil => exact h
    | cons e rest =>
      rw [show sectionsLoop a (e :: rest) n secs 0 = none from rfl] at h
      cases h
  | succ k ih =>
    intro st n secs r h
    cases st with
    | nil => exact h
    | cons e rest =>
      simp only [sectionsLoop] at h ⊢
      cases hb : buildRawSection a e.node e.parentSectionId n k with
      | none => rw [hb] at h; cases h
      | some pr =>
        obtain ⟨sec, next⟩ := pr
        rw [hb] at h
        rw [buildRawSection_mono a e.node e.parentSectionId n k (sec, next) hb]
        exact ih _ _ _ _ h

/-- Stack composition: a run over a concatenated stack is the run over the
first part followed by the run over the second, because entries pushed
while the first part is processed sit above the second part and are
consumed before it. -/
theorem sectionsLoop_split (a : Arena) :
    ∀ (fuel : Nat) (s1 s2 : List Entry) (n : Nat) (secs : List RawSection)
      (out : List RawSection × Nat),
      sectionsLoop a (s1 ++ s2) n secs fuel = some out →
      ∃ n1 secs1, sectionsLoop a s1 n secs fuel = some (secs1, n1) ∧
        sectionsLoop a s2 n1 secs1 fuel = some out := by
  intro fuel
  induction fuel with
  | zero =>
    intro s1 s2 n secs out h
    cases s1 with
    | nil => exact ⟨n, secs, rfl, h⟩
    | cons e rest =>
      rw [show sectionsLoop a ((e :: rest) ++ s2) n secs 0 = none from rfl] at h
      cases h
  | succ k ih =>
    intro s1 s2 n secs out h
    cases s1 with
    | nil => exact ⟨n, secs, rfl, h⟩
    | cons e rest =>
      rw [List.cons_append] at h
      simp only [sectionsLoop] at h ⊢
      cases hb : buildRawSection a e.node e.parentSectionId n k with
      | none => rw [hb] at h; cases h
      | some pr =>
        obtain ⟨sec, next⟩ := pr
        simp only [hb] at h
        rw [← List.append_assoc] at h
        obtain ⟨n1, secs1, h1, h2⟩ := ih _ s2 (n + 1) _ out h
        refine ⟨n1, secs1, ?_, sectionsLoop_mono a k s2 n1 secs1 out h2⟩
        simp only [hb]
        exact h1

/-- Structural facts of buildRawSection: the produced section carries the
requested id, the requested parent section id, the starting node's type
and an empty children list. -/
theorem buildRawSection_spec (a : Arena) (startIdx : Nat) (psid : Option Nat)
    (currentId fuel : Nat) (sec : RawSection) (next : List Nat)
    (h : buildRawSection a startIdx psid currentId fuel = some (sec, next)) :
    sec.id = currentId ∧ sec.parent = psid ∧ sec.children = [] ∧
      sec.typevalue = (nodeAt a startIdx).typ := by
  unfold buildRawSection at h
  cases hd : dive a startIdx (buildSeed a startIdx) fuel with
  | none => rw [hd] at h; cases h
  | some pr =>
    obtain ⟨nl, nx⟩ := pr
    rw [hd] at h
    cases h
    exact ⟨rfl, rfl, rfl, rfl⟩

theorem length_registerChild (secs : List RawSection) (psid : Option Nat)
    (cid : Nat) : (registerChild secs psid cid).length = secs.length := by
  cases psid with
  | none => rfl
  | some p =>
    simp only [registerChild]
    by_cases hp : p ≠ 0
    · rw [if_pos hp]
      exact length_updateAt secs p _
    · rw [if_neg hp]

/-- Registering a child only touches the children list of the parent
section: the core of every stored section is unchanged. -/
theorem registerChild_core (secs : List RawSection) (psid : Option Nat)
    (cid k : Nat) :
    sectionCore ((registerChild secs psid cid).getD k default) =
      sectionCore (secs.getD k default) := by
  cases psid with
  | none => rfl
  | some p =>
    simp only [registerChild]
    by_cases hp : p ≠ 0
    · rw [if_pos hp]
      by_cases hpk : p = k
      · subst hpk
        by_cases hl : p < secs.length
        · rw [getD_updateAt_self secs p _ default hl]
          rfl
        · rw [updateAt_out secs p _ (le_of_not_lt hl)]
      · rw [getD_updateAt_ne secs p k _ default hpk]
    · rw [if_neg hp]

/-- Reading just past a list of known length returns the appended element. -/
theorem getD_append_at {α : Type} (l : List α) (x d : α) (n : Nat)
    (h : l.length = n) : (l ++ [x]).getD n d = x := by
  subst h
  exact getD_append_length l x d

/-- Bookkeeping of the work-stack loop: the next id always equals the
number of stored sections, ids only grow, the core of every already
stored section survives the rest of the run, and consecutive id
assignment is preserved. -/
theorem sectionsLoop_book (a : Arena) :
    ∀ (fuel : Nat) (st : List Entry) (n : Nat) (secs out : List RawSection)
      (n' : Nat),
      sectionsLoop a st n secs fuel = some (out, n') → secs.length = n →
      out.length = n' ∧ n ≤ n' ∧
        (∀ k, k < n →
          sectionCore (out.getD k default) = sectionCore (secs.getD k default)) ∧
        ((∀ k, k < n → (secs.getD k default).id = k) →
          ∀ k, k < n' → (out.getD k default).id = k) := by
  intro fuel
  induction fuel with
  | zero =>
    intro st n secs out n' h hlen
    cases st with
    | cons e rest =>
      rw [show sectionsLoop a (e :: rest) n secs 0 = none from rfl] at h
      cases h
    | nil =>
      rw [show sectionsLoop a [] n secs 0 = some (secs, n) from rfl] at h
      cases h
      exact ⟨hlen, le_refl n, fun k _ => rfl, fun hid => hid⟩
  | succ m ih =>
    intro st n secs out n' h hlen
    cases st with
    | nil =>
      rw [show sectionsLoop a [] n secs (m + 1) = some (secs, n) from rfl] at h
      cases h
      exact ⟨hlen, le_refl n, fun k _ => rfl, fun hid => hid⟩
    | cons e rest =>
      simp only [sectionsLoop] at h
      cases hb : buildRawSection a e.node e.parentSectionId n m with
      | none => rw [hb] at h; cases h
      | some pr =>
        obtain ⟨sec, next⟩ := pr
        rw [hb] at h
        have hlen1 : (registerChild secs e.parentSectionId n ++ [sec]).length
            = n + 1 := by
          rw [List.length_append, length_registerChild, hlen]
          rfl
        obtain ⟨hlo, hle, hcore, hids⟩ := ih _ _ _ _ _ h hlen1
        have hgetn : (registerChild secs e.parentSectionId n ++ [sec]).getD n
            default = sec :=
          getD_append_at _ sec default n (by rw [length_registerChild, hlen])
        refine ⟨hlo, by omega, ?_, ?_⟩
        · intro j hj
          rw [hcore j (by omega)]
          rw [getD_append_left _ _ j default
            (by rw [length_registerChild, hlen]; omega)]
          exact registerChild_core secs e.parentSectionId n j
        · intro hprev
          apply hids
          intro j hj
          by_cases hjn : j < n
          · rw [getD_append_left _ _ j default
              (by rw [length_registerChild, hlen]; omega)]
            have hfld := congrArg (fun t => t.1)
              (registerChild_core secs e.parentSectionId n j)
            simp only [sectionCore] at hfld
            rw [hfld]
            exact hprev j hjn
          · have hjeq : j = n := by omega
            subst hjeq
            rw [hgetn]
            exact (buildRawSection_spec a e.node e.parentSectionId j m sec
              next hb).1

/-- The first section appended by a run whose stack starts with the entry
e is built from e with the current id, and survives into the final
section list at position and id n. -/
theorem sectionsLoop_first (a : Arena) (e : Entry) (rest : List Entry)
    (n : Nat) (secs : List RawSection) (m : Nat) (out : List RawSection)
    (n' : Nat)
    (h : sectionsLoop a (e :: rest) n secs (m + 1) = some (out, n'))
    (hlen : secs.length = n) :
    ∃ sec next, buildRawSection a e.node e.parentSectionId n m =
        some (sec, next) ∧
      n < out.length ∧ sectionCore (out.getD n default) = sectionCore sec ∧
      n < n' := by
  simp only [sectionsLoop] at h
  cases hb : buildRawSection a e.node e.parentSectionId n m with
  | none => rw [hb] at h; cases h
  | some pr =>
    obtain ⟨sec, next⟩ := pr
    rw [hb] at h
    have hlen1 : (registerChild secs e.parentSectionId n ++ [sec]).length
        = n + 1 := by
      rw [List.length_append, length_registerChild, hlen]
      rfl
    obtain ⟨hlo, hle, hcore, -⟩ := sectionsLoop_book a m _ _ _ _ _ h hlen1
    have hgetn : (registerChild secs e.parentSectionId n ++ [sec]).getD n
        default = sec :=
      getD_append_at _ sec default n (by rw [length_registerChild, hlen])
    refine ⟨sec, next, rfl, by omega, ?_, by omega⟩
    rw [hcore n (by omega), hgetn]

/-! ## Claim C10 -/

/-- C10: section ids are the consecutive integers 0, 1, 2, … in build
order (the section stored at position k carries id k), and the assignment
is depth-first with siblings reversed: whenever two entries for sibling
nodes sit on the work stack with eb above ea — which is how a fork pushes
them, the structurally later sibling on top — the section built from the
entry nearer the top receives a strictly smaller id, the whole subtree of
eb being exhausted before ea is popped. -/
theorem c10_consecutive_ids_sibling_reverse :
    (∀ (c : Collection) (fuel : Nat) (out : List RawSection),
      buildSections c fuel = some (some out) →
      ∀ k, k < out.length → (out.getD k default).id = k) ∧
    (∀ (a : Arena) (s1 : List Entry) (eb : Entry) (s2 : List Entry)
       (ea : Entry) (s3 : List Entry) (n : Nat) (secs out : List RawSection)
       (n'' fuel : Nat),
      sectionsLoop a (s1 ++ (eb :: (s2 ++ (ea :: s3)))) n secs fuel =
        some (out, n'') →
      secs.length = n →
      ∃ nb na, nb < na ∧ na < out.length ∧
        (∃ fb secB nextB,
          buildRawSection a eb.node eb.parentSectionId nb fb =
            some (secB, nextB) ∧
          sectionCore (out.getD nb default) = sectionCore secB ∧
          secB.id = nb) ∧
        (∃ fa secA nextA,
          buildRawSection a ea.node ea.parentSectionId na fa =
            some (secA, nextA) ∧
          sectionCore (out.getD na default) = sectionCore secA ∧
          secA.id = na)) := by
  constructor
  · intro c fuel out h k hk
    unfold buildSections at h
    cases hf : findFirstValid c fuel (objectKeys c.nodes) with
    | none => rw [hf] at h; cases h
    | some fv =>
      cases fv with
      | none =>
        simp only [hf] at h
        exact absurd h (by simp)
      | some pr =>
        obtain ⟨idx, children⟩ := pr
        simp only [hf] at h
        cases hl : sectionsLoop c.arena
            ((children.map (fun i => Entry.mk i none)).reverse) 0 [] fuel with
        | none => rw [hl] at h; cases h
        | some pr2 =>
          obtain ⟨sections, nfin⟩ := pr2
          simp only [hl] at h
          by_cases hs : sections = []
          · rw [if_pos hs] at h
            exact absurd h (by simp)
          · rw [if_neg hs] at h
            cases h
            obtain ⟨hlo, -, -, hids⟩ :=
              sectionsLoop_book c.arena fuel _ 0 [] _ _ hl rfl
            exact hids (fun j hj => absurd hj (by omega)) k (by omega)
  · intro a s1 eb s2 ea s3 n secs out n'' fuel h hlen
    obtain ⟨n1, secs1, h1, h2⟩ :=
      sectionsLoop_split a fuel s1 (eb :: (s2 ++ (ea :: s3))) n secs (out, n'') h
    obtain ⟨hlen1, -, -, -⟩ := sectionsLoop_book a fuel s1 n secs secs1 n1 h1 hlen
    cases fuel with
    | zero =>
      rw [show sectionsLoop a (eb :: (s2 ++ (ea :: s3))) n1 secs1 0 = none
        from rfl] at h2
      cases h2
    | succ m =>
      obtain ⟨secB, nextB, hbB, hltB, hcoreB, -⟩ :=
        sectionsLoop_first a eb _ n1 secs1 m out n'' h2 hlen1
      simp only [sectionsLoop, hbB] at h2
      rw [← List.append_assoc] at h2
      have hlen1' : (registerChild secs1 eb.parentSectionId n1 ++ [secB]).length
          = n1 + 1 := by
        rw [List.length_append, length_registerChild, hlen1]
        rfl
      obtain ⟨n2, secs2, h3, h4⟩ :=
        sectionsLoop_split a m _ (ea :: s3) (n1 + 1) _ (out, n'') h2
      obtain ⟨hlen2, hge, -, -⟩ :=
        sectionsLoop_book a m _ (n1 + 1) _ secs2 n2 h3 hlen1'
      cases m with
      | zero =>
        rw [show sectionsLoop a (ea :: s3) n2 secs2 0 = none from rfl] at h4
        cases h4
      | succ m2 =>
        obtain ⟨secA, nextA, hbA, hltA, hcoreA, -⟩ :=
          sectionsLoop_first a ea s3 n2 secs2 m2 out n'' h4 hlen2
        refine ⟨n1, n2, by omega, hltA, ?_, ?_⟩
        · exact ⟨m2 + 1, secB, nextB, hbB, hcoreB,
            (buildRawSection_spec a eb.node eb.parentSectionId n1 (m2 + 1) secB
              nextB hbB).1⟩
        · exact ⟨m2, secA, nextA, hbA, hcoreA,
            (buildRawSection_spec a ea.node ea.parentSectionId n2 m2 secA
              nextA hbA).1⟩

/-- Witness for C10 on the fork input: the final section list has id k at
position k, and from the post-fork stack — the two sibling entries for
nodes 4 (top) and 3 — the top entry, the structurally second child,
receives the smaller id. -/
theorem c10_consecutive_ids_sibling_reverse_witness :
    ((forkSections.getD 2 default).id = 2) ∧
    (∃ nb na, nb < na ∧ na < forkSections.length ∧
      (∃ fb secB nextB,
        buildRawSection forkCol.arena (Entry.mk 3 (some 0)).node
          (Entry.mk 3 (some 0)).parentSectionId nb fb = some (secB, nextB) ∧
        sectionCore (forkSections.getD nb default) = sectionCore secB ∧
        secB.id = nb) ∧
      (∃ fa secA nextA,
        buildRawSection forkCol.arena (Entry.mk 2 (some 0)).node
          (Entry.mk 2 (some 0)).parentSectionId na fa = some (secA, nextA) ∧
        sectionCore (forkSections.getD na default) = sectionCore secA ∧
        secA.id = na)) :=
  ⟨c10_consecutive_ids_sibling_reverse.1 forkCol 100 forkSections (by decide)
      2 (by decide),
   c10_consecutive_ids_sibling_reverse.2 forkCol.arena [] (Entry.mk 3 (some 0))
      [] (Entry.mk 2 (some 0)) [] 1
      [{ typevalue := 2, points := [((0, 0, 0), 0), ((1, 0, 0), 1)], id := 0,
         children := [], parent := none }]
      forkSections 3 98 (by decide) (by decide)⟩

/-! ## Claim C6: arena well-formedness through graph construction -/

theorem nodeAt_updateAt_self (a : Arena) (i : Nat) (f : TreeNode → TreeNode)
    (h : i < a.length) : nodeAt (updateAt a i f) i = f (nodeAt a i) := by
  unfold nodeAt
  exact getD_updateAt_self a i f default h

theorem nodeAt_updateAt_of_ne (a : Arena) (i k : Nat) (f : TreeNode → TreeNode)
    (h : i ≠ k) : nodeAt (updateAt a i f) k = nodeAt a k := by
  unfold nodeAt
  exact getD_updateAt_ne a i k f default h

theorem jsObjGet_mem {κ α : Type} [DecidableEq κ] (m : List (κ × α)) (k : κ)
    (v : α) (h : jsObjGet m k = some v) : (k, v) ∈ m := by
  induction m with
  | nil => exact absurd h (by simp [jsObjGet])
  | cons e rest ih =>
    obtain ⟨k', v'⟩ := e
    by_cases hk : k = k'
    · simp only [jsObjGet, if_pos hk] at h
      cases h
      subst hk
      exact List.mem_cons_self _ _
    · simp only [jsObjGet, if_neg hk] at h
      exact List.mem_cons_of_mem _ (ih h)

/-- The invariant of one point iteration: a well-formed arena with an
in-range registry stays well formed. -/
theorem initStep_inv (st : InitState) (p : RawPoint) (st1 : InitState)
    (hai : arenaInv st.arena)
    (hni : ∀ e ∈ st.nodes, e.2 < st.arena.length)
    (h : initStep st (some p) = .ok st1) :
    arenaInv st1.arena ∧ ∀ e ∈ st1.nodes, e.2 < st1.arena.length := by
  have hlen := (initStep_preserves st p st1 h).1
  have hnodes := initStep_nodes st p st1 h
  have hni1 : ∀ e ∈ st1.nodes, e.2 < st1.arena.length := by
    intro e he
    rw [hnodes] at he
    rw [hlen]
    rcases mem_jsObjSet _ _ _ _ he with he | he
    · rw [he]
      exact Nat.lt_succ_self _
    · exact lt_trans (hni e he) (Nat.lt_succ_self _)
  refine ⟨?_, hni1⟩
  simp only [initStep] at h
  by_cases hp : p.parentId = -1
  · rw [if_pos hp] at h
    cases h
    show arenaInv (st.arena ++
      [{ id := p.id, typ := p.typ, position := (p.x, p.y, p.z),
         radius := p.radius, parent := none, children := [],
         hasSomaChildren := false }])
    intro i hi j hj
    simp only [List.length_append, List.length_cons, List.length_nil] at hi ⊢
    by_cases hil : i < st.arena.length
    · rw [nodeAt_append_left st.arena _ i hil] at hj
      obtain ⟨hjl, hjp⟩ := hai i hil j hj
      rw [nodeAt_append_left st.arena _ j hjl]
      exact ⟨by omega, hjp⟩
    · have : i = st.arena.length := by omega
      subst this
      rw [nodeAt_append_length] at hj
      cases hj
  · rw [if_neg hp] at h
    cases hl : jsObjGet (jsObjSet st.nodes p.id st.arena.length) p.parentId with
    | none => rw [hl] at h; cases h
    | some pIdx =>
      rw [hl] at h
      cases h
      -- names for the three arena stages of the link branch
      have hpIdx : pIdx < st.arena.length + 1 := by
        rcases mem_jsObjSet _ _ _ _ (jsObjGet_mem _ _ _ hl) with hm | hm
        · injection hm with h1 h2
          omega
        · exact lt_trans (hni _ hm) (Nat.lt_succ_self _)
      set node0 : TreeNode :=
        { id := p.id, typ := p.typ, position := (p.x, p.y, p.z),
          radius := p.radius, parent := none, children := [],
          hasSomaChildren := false } with hnode0
      set a1 : Arena := st.arena ++ [node0] with ha1
      set a2 : Arena := updateAt a1 st.arena.length
        (fun n => { n with parent := some pIdx }) with ha2
      have ha1len : a1.length = st.arena.length + 1 := by simp [ha1]
      have ha2len : a2.length = st.arena.length + 1 := by
        rw [ha2, length_updateAt, ha1len]
      -- nodes of the second stage
      have ha2old : ∀ k, k < st.arena.length → nodeAt a2 k = nodeAt st.arena k := by
        intro k hk
        rw [ha2, nodeAt_updateAt_of_ne a1 _ k _ (by omega),
          ha1, nodeAt_append_left st.arena _ k hk]
      have ha2new : nodeAt a2 st.arena.length =
          { node0 with parent := some pIdx } := by
        rw [ha2, nodeAt_updateAt_self a1 _ _ (by omega), ha1, nodeAt_append_length]
      have hai2 : arenaInv a2 := by
        intro i hi j hj
        rw [ha2len] at hi
        by_cases hil : i < st.arena.length
        · rw [ha2old i hil] at hj
          obtain ⟨hjl, hjp⟩ := hai i hil j hj
          rw [ha2old j hjl]
          exact ⟨by omega, hjp⟩
        · have : i = st.arena.length := by omega
          subst this
          rw [ha2new] at hj
          cases hj
      -- no node of a2 lists the fresh index among its children
      have hfresh : ∀ i, i < a2.length → st.arena.length ∉ (nodeAt a2 i).children := by
        intro i hi hmem
        have := (hai2 i hi _ hmem).2
        by_cases hil : i < st.arena.length
        · rw [ha2old i hil] at hmem
          have := (hai i hil _ hmem).1
          omega
        · have : i = st.arena.length := by omega
          subst this
          rw [ha2new] at hmem
          cases hmem
      -- the addChild stage
      intro i hi j hj
      unfold addChild at hi hj ⊢
      by_cases hd : doesAlreadyHaveChild a2 (nodeAt a2 pIdx) st.arena.length
      · rw [if_pos hd] at hi hj ⊢
        exact hai2 i hi j hj
      · rw [if_neg hd] at hi hj ⊢
        rw [length_updateAt, ha2len] at hi
        have hparent : ∀ k, (nodeAt (updateAt a2 pIdx
            (fun q => { q with
              children := q.children ++ [st.arena.length]
              hasSomaChildren := nodeIsSoma (nodeAt a2 st.arena.length) ||
                q.hasSomaChildren })) k).parent = (nodeAt a2 k).parent := by
          intro k
          by_cases hpk : pIdx = k
          · subst hpk
            by_cases hbl : pIdx < a2.length
            · rw [nodeAt_updateAt_self a2 pIdx _ hbl]
            · rw [updateAt_out a2 pIdx _ (le_of_not_lt hbl)]
          · rw [nodeAt_updateAt_of_ne a2 pIdx k _ hpk]
        by_cases hpi : pIdx = i
        · subst hpi
          rw [nodeAt_updateAt_self a2 pIdx _ (by omega)] at hj
          simp only [List.mem_append, List.mem_singleton] at hj
          rcases hj with hj | hj
          · obtain ⟨hjl, hjp⟩ := hai2 pIdx (by omega) j hj
            rw [length_updateAt, ha2len, hparent j, hjp]
            exact ⟨by omega, rfl⟩
          · subst hj
            rw [length_updateAt, ha2len, hparent st.arena.length]
            have := congrArg TreeNode.parent ha2new
            exact ⟨by omega, by rw [this]⟩
        · rw [nodeAt_updateAt_of_ne a2 pIdx i _ hpi] at hj
          obtain ⟨hjl, hjp⟩ := hai2 i (by omega) j hj
          rw [length_updateAt, ha2len, hparent j, hjp]
          exact ⟨by omega, rfl⟩

/-- Arena well-formedness through the whole point loop. -/
theorem initFold_inv (pts : List (Option RawPoint)) :
    ∀ (st st' : InitState),
      arenaInv st.arena → (∀ e ∈ st.nodes, e.2 < st.arena.length) →
      List.foldlM initStep st pts = .ok st' →
      arenaInv st'.arena ∧ ∀ e ∈ st'.nodes, e.2 < st'.arena.length := by
  induction pts with
  | nil =>
    intro st st' hai hni h
    simp only [List.foldlM] at h
    cases h
    exact ⟨hai, hni⟩
  | cons p? rest ih =>
    intro st st' hai hni h
    simp only [List.foldlM] at h
    cases p? with
    | none =>
      rw [show initStep st none = .error .typeError from rfl] at h
      cases h
    | some p =>
      cases hstep : initStep st (some p) with
      | error e => rw [hstep] at h; cases h
      | ok st1 =>
        rw [hstep] at h
        obtain ⟨hai1, hni1⟩ := initStep_inv st p st1 hai hni hstep
        exact ih st1 st' hai1 hni1 h

/-- Arena well-formedness of a successfully built collection. -/
theorem initCollection_inv (pts : List (Option RawPoint)) (c : Collection)
    (h : initCollection pts = .ok c) :
    arenaInv c.arena ∧ ∀ e ∈ c.nodes, e.2 < c.arena.length := by
  unfold initCollection at h
  cases hfold : List.foldlM initStep
      { arena := [], nodes := [], somaIdx := [] } pts with
  | error e => rw [hfold] at h; cases h
  | ok st =>
    rw [hfold] at h
    simp only [bind, Except.bind, pure, Except.pure] at h
    cases h
    exact initFold_inv pts _ st (by intro i hi j hj; exact absurd hi (by simp))
      (by intro e he; cases he) hfold

theorem insertSorted_mem (x : Int) (l : List Int) (y : Int)
    (h : y ∈ insertSorted x l) : y = x ∨ y ∈ l := by
  induction l with
  | nil =>
    simp [insertSorted] at h
    exact Or.inl h
  | cons z zs ih =>
    simp only [insertSorted] at h
    by_cases hz : x ≤ z
    · rw [if_pos hz] at h
      rcases List.mem_cons.mp h with h | h
      · exact Or.inl h
      · exact Or.inr h
    · rw [if_neg hz] at h
      rcases List.mem_cons.mp h with h | h
      · exact Or.inr (by simp [h])
      · rcases ih h with h | h
        · exact Or.inl h
        · exact Or.inr (List.mem_cons_of_mem _ h)

theorem sortInts_mem (l : List Int) (y : Int) (h : y ∈ sortInts l) : y ∈ l := by
  induction l with
  | nil => exact absurd h (by simp [sortInts])
  | cons z zs ih =>
    rcases insertSorted_mem z (sortInts zs) y h with h | h
    · simp [h]
    · exact List.mem_cons_of_mem _ (ih h)

/-- Every enumerated key of the node map is a key of the map. -/
theorem objectKeys_mem (m : List (Int × Nat)) (k : Int)
    (h : k ∈ objectKeys m) : k ∈ m.map (·.1) := by
  unfold objectKeys at h
  rcases List.mem_append.mp h with h | h
  · have := sortInts_mem _ k h
    rcases List.mem_map.mp this with ⟨e, he, hek⟩
    exact List.mem_map.mpr ⟨e, (List.mem_filter.mp he).1, hek⟩
  · rcases List.mem_map.mp h with ⟨e, he, hek⟩
    exact List.mem_map.mpr ⟨e, (List.mem_filter.mp he).1, hek⟩

theorem jsObjGet_some_of_mem_keys {κ α : Type} [DecidableEq κ]
    (m : List (κ × α)) (k : κ) (h : k ∈ m.map (·.1)) :
    ∃ v, jsObjGet m k = some v := by
  induction m with
  | nil => exact absurd h (by simp)
  | cons e rest ih =>
    obtain ⟨k', v'⟩ := e
    by_cases hk : k = k'
    · exact ⟨v', by simp [jsObjGet, hk]⟩
    · simp only [List.map, List.mem_cons] at h
      rcases h with h | h
      · exact absurd h hk
      · obtain ⟨v, hv⟩ := ih h
        exact ⟨v, by simp [jsObjGet, hk, hv]⟩

/-- The candidate returned by the first-valid-node scan over the map's
own keys: an in-range node index together with a sublist of its
children. -/
theorem findFirstValid_ok (c : Collection) (fuel : Nat)
    (hni : ∀ e ∈ c.nodes, e.2 < c.arena.length) :
    ∀ (ks : List Int) (idx : Nat) (ch : List Nat),
      (∀ k ∈ ks, k ∈ c.nodes.map (·.1)) →
      findFirstValid c fuel ks = some (some (idx, ch)) →
      idx < c.arena.length ∧ ∀ x ∈ ch, x ∈ (nodeAt c.arena idx).children := by
  intro ks
  induction ks with
  | nil =>
    intro idx ch hks h
    exact absurd h (by simp [findFirstValid])
  | cons k ks ih =>
    intro idx ch hks h
    simp only [findFirstValid] at h
    cases hg : getNonSomaChildren c.arena
        (nodeAt c.arena ((jsObjGet c.nodes k).getD 0)) fuel with
    | none => rw [hg] at h; cases h
    | some children =>
      rw [hg] at h
      cases children with
      | nil => exact ih idx ch (fun k' hk' => hks k' (by simp [hk'])) h
      | cons c0 cs =>
        cases h
        obtain ⟨v, hv⟩ := jsObjGet_some_of_mem_keys c.nodes k
          (hks k (by simp))
        constructor
        · rw [hv]
          exact hni (k, v) (jsObjGet_mem c.nodes k v hv)
        · exact getNonSomaChildren_sub c.arena _ fuel _ hg

/-- The element read at index 0 of a singleton-length list is its member. -/
theorem getD_zero_mem (children : List Nat) (h : children.length = 1) :
    children.getD 0 0 ∈ children := by
  cases children with
  | nil => simp at h
  | cons c cs => simp

/-- The shape of a successful dive from an in-range node of a well-formed
arena: it extends the seed list by a nonempty walk, the last walked node
is in range, and the yielded fork directions are among that node's
children. -/
theorem dive_shape (a : Arena) (hai : arenaInv a) :
    ∀ (fuel idx : Nat) (nl nl' next : List Nat),
      idx < a.length → dive a idx nl fuel = some (nl', next) →
      ∃ w, w < a.length ∧ nl'.getLast? = some w ∧
        (∃ pre, nl' = nl ++ pre ∧ pre ≠ []) ∧
        ∀ x ∈ next, x ∈ (nodeAt a w).children := by
  intro fuel
  induction fuel with
  | zero =>
    intro idx nl nl' next hidx h
    rw [show dive a idx nl 0 = none from rfl] at h
    cases h
  | succ k ih =>
    intro idx nl nl' next hidx h
    simp only [dive] at h
    cases hg : getNonSomaChildren a (nodeAt a idx) k with
    | none => rw [hg] at h; cases h
    | some children =>
      simp only [hg] at h
      by_cases hone : children.length = 1
      · rw [if_pos hone] at h
        by_cases ht : (nodeAt a (children.getD 0 0)).typ = (nodeAt a idx).typ
        · rw [if_pos ht] at h
          have hc : children.getD 0 0 ∈ (nodeAt a idx).children :=
            getNonSomaChildren_sub a _ k children hg _ (getD_zero_mem _ hone)
          obtain ⟨hcl, -⟩ := hai idx hidx _ hc
          obtain ⟨w, hw, hlast, ⟨pre, hpre, hprene⟩, hsub⟩ :=
            ih _ _ _ _ hcl h
          refine ⟨w, hw, hlast, ⟨idx :: pre, ?_, by simp⟩, hsub⟩
          rw [hpre]
          simp
        · rw [if_neg ht] at h
          cases h
          refine ⟨idx, hidx, List.getLast?_concat nl, ⟨[idx], rfl, by simp⟩, ?_⟩
          intro x hx
          cases hx
      · rw [if_neg hone] at h
        cases h
        exact ⟨idx, hidx, List.getLast?_concat nl, ⟨[idx], rfl, by simp⟩,
          getNonSomaChildren_sub a _ k _ hg⟩

/-- Zeroing the first radius keeps the last point of a list of two or
more points. -/
theorem zeroHeadRadius_getLast (l : List ((ℚ × ℚ × ℚ) × ℚ))
    (h : 2 ≤ l.length) : (zeroHeadRadius l).getLast? = l.getLast? := by
  match l with
  | [] => simp at h
  | [p] => simp at h
  | p :: q :: rest =>
    show ((p.1, 0) :: q :: rest).getLast? = (p :: q :: rest).getLast?
    rw [List.getLast?_cons_cons, List.getLast?_cons_cons]

theorem length_zeroHeadRadius (l : List ((ℚ × ℚ × ℚ) × ℚ)) :
    (zeroHeadRadius l).length = l.length := by
  cases l with
  | nil => rfl
  | cons p rest => rfl

/-- The points of a section built from an entry whose node has a tree
parent: the first point is the tree parent's data when the section is not
root-level, and the last point is the data of the last dived node. -/
theorem mkRawSection_points (a : Arena) (startIdx : Nat) (psid : Option Nat)
    (currentId : Nat) (par : Nat) (pre : List Nat) (w : Nat)
    (hlast : (par :: pre).getLast? = some w) (hpre : pre ≠ []) :
    (mkRawSection a startIdx psid currentId (par :: pre)).points.getLast? =
      some ((nodeAt a w).position, (nodeAt a w).radius) ∧
    (psid ≠ none →
      (mkRawSection a startIdx psid currentId (par :: pre)).points.head? =
        some ((nodeAt a par).position, (nodeAt a par).radius)) := by
  unfold mkRawSection
  constructor
  · show (if psid = none then zeroHeadRadius _ else _).getLast? = _
    have hmap : (((par :: pre).map
        (fun i => ((nodeAt a i).position, (nodeAt a i).radius))).getLast?) =
        some ((nodeAt a w).position, (nodeAt a w).radius) := by
      rw [List.getLast?_map, hlast]
      rfl
    by_cases hn : psid = none
    · rw [if_pos hn, zeroHeadRadius_getLast, hmap]
      rw [List.length_map, List.length_cons]
      have : 1 ≤ pre.length := by
        cases pre with
        | nil => exact absurd rfl hpre
        | cons x xs => simp
      omega
    · rw [if_neg hn, hmap]
  · intro hn
    show (if psid = none then zeroHeadRadius _ else _).head? = _
    rw [if_neg hn]
    rfl

/-- The continuity invariant is preserved by the whole work-stack loop. -/
theorem sectionsLoop_c6 (a : Arena) (hai : arenaInv a) :
    ∀ (fuel : Nat) (st : List Entry) (n : Nat) (secs out : List RawSection)
      (n' : Nat),
      sectionsLoop a st n secs fuel = some (out, n') →
      secs.length = n →
      (∀ e ∈ st, entryInv a secs e) →
      secInv secs →
      secInv out := by
  intro fuel
  induction fuel with
  | zero =>
    intro st n secs out n' h hlen hst hsec
    cases st with
    | cons e rest =>
      rw [show sectionsLoop a (e :: rest) n secs 0 = none from rfl] at h
      cases h
    | nil =>
      rw [show sectionsLoop a [] n secs 0 = some (secs, n) from rfl] at h
      cases h
      exact hsec
  | succ m ih =>
    intro st n secs out n' h hlen hst hsec
    cases st with
    | nil =>
      rw [show sectionsLoop a [] n secs (m + 1) = some (secs, n) from rfl] at h
      cases h
      exact hsec
    | cons e rest =>
      simp only [sectionsLoop] at h
      cases hb : buildRawSection a e.node e.parentSectionId n m with
      | none => rw [hb] at h; cases h
      | some pr =>
        obtain ⟨sec, next⟩ := pr
        simp only [hb] at h
        obtain ⟨henode, par, hparl, hpar, hpsec⟩ := hst e (by simp)
        -- destructure the build
        unfold buildRawSection at hb
        have hseed : buildSeed a e.node = [par] := by
          unfold buildSeed
          rw [hpar]
        rw [hseed] at hb
        cases hd : dive a e.node [par] m with
        | none => rw [hd] at hb; cases hb
        | some pr2 =>
          obtain ⟨nl, nx⟩ := pr2
          rw [hd] at hb
          cases hb
          obtain ⟨w, hw, hlast, ⟨pre, hpre, hprene⟩, hsub⟩ :=
            dive_shape a hai m e.node [par] nl _ henode hd
          have hnl : nl = par :: pre := hpre
          rw [hnl] at hlast
          obtain ⟨hlastpt, hheadpt⟩ := mkRawSection_points a e.node
            e.parentSectionId n par pre w hlast hprene
          rw [hnl] at h
          -- bookkeeping on the new stored list
          have hlen1 : (registerChild secs e.parentSectionId n ++
              [mkRawSection a e.node e.parentSectionId n (par :: pre)]).length
              = n + 1 := by
            rw [List.length_append, length_registerChild, hlen]
            rfl
          have hgetn : (registerChild secs e.parentSectionId n ++
              [mkRawSection a e.node e.parentSectionId n (par :: pre)]).getD n
              default = mkRawSection a e.node e.parentSectionId n (par :: pre) :=
            getD_append_at _ _ default n (by rw [length_registerChild, hlen])
          have hpts_pres : ∀ q, q < n →
              ((registerChild secs e.parentSectionId n ++
                [mkRawSection a e.node e.parentSectionId n (par :: pre)]).getD q
                default).points = (secs.getD q default).points := by
            intro q hq
            rw [getD_append_left _ _ q default
              (by rw [length_registerChild, hlen]; omega)]
            exact congrArg (fun t => t.2.2.1)
              (registerChild_core secs e.parentSectionId n q)
          have hpar_pres : ∀ q, q < n →
              ((registerChild secs e.parentSectionId n ++
                [mkRawSection a e.node e.parentSectionId n (par :: pre)]).getD q
                default).parent = (secs.getD q default).parent := by
            intro q hq
            rw [getD_append_left _ _ q default
              (by rw [length_registerChild, hlen]; omega)]
            exact congrArg (fun t => t.2.2.2)
              (registerChild_core secs e.parentSectionId n q)
          apply ih _ _ _ _ _ h hlen1
          · -- every remaining stack entry keeps its invariant
            intro e' he'
            rcases List.mem_append.mp he' with he' | he'
            · -- a freshly pushed fork direction
              rw [List.mem_reverse] at he'
              rcases List.mem_map.mp he' with ⟨x, hx, hxe⟩
              obtain ⟨hxl, hxp⟩ := hai w hw x (hsub x hx)
              refine ⟨by rw [← hxe]; exact hxl, w, hw, ?_, ?_⟩
              · rw [← hxe]
                exact hxp
              · intro p hp
                rw [← hxe] at hp
                cases hp
                refine ⟨by omega, ?_⟩
                rw [hgetn]
                exact hlastpt
            · -- an entry that was already on the stack
              obtain ⟨hl1, par', hl2, hl3, hl4⟩ := hst e' (by simp [he'])
              refine ⟨hl1, par', hl2, hl3, ?_⟩
              intro p hp
              obtain ⟨hp1, hp2⟩ := hl4 p hp
              rw [hlen] at hp1
              refine ⟨by rw [hlen1]; omega, ?_⟩
              rw [hpts_pres p (by omega)]
              exact hp2
          · -- the stored sections keep the continuity invariant
            intro q hq p hp
            rw [hlen1] at hq
            by_cases hqn : q < n
            · rw [hpar_pres q hqn] at hp
              obtain ⟨hp1, hp2⟩ := hsec q (by omega) p hp
              rw [hlen] at hp1
              refine ⟨by rw [hlen1]; omega, ?_⟩
              rw [hpts_pres q hqn, hpts_pres p (by omega)]
              exact hp2
            · have hqeq : q = n := by omega
              subst hqeq
              rw [hgetn] at hp ⊢
              have hparfield : (mkRawSection a e.node e.parentSectionId q
                  (par :: pre)).parent = e.parentSectionId := rfl
              rw [hparfield] at hp
              obtain ⟨hp1, hp2⟩ := hpsec p hp
              rw [hlen] at hp1
              refine ⟨by rw [hlen1]; omega, ?_⟩
              rw [hpts_pres p (by omega), hheadpt (by rw [hp]; simp), hp2]

/-- C6: in every reconstruction that runs to completion, a section that
records a parent section starts with exactly the point (position and
radius) at which the parent section ends; and on the concrete fork input
the two child sections carry the same parent section id 0 and each starts
with the last point of section 0. -/
theorem c6_first_point_continuity :
    (∀ (pts : List (Option RawPoint)) (c : Collection) (fuel : Nat)
       (out : List RawSection),
      initCollection pts = .ok c → buildSections c fuel = some (some out) →
      secInv out) ∧
    (buildSections forkCol 100 = some (some forkSections) ∧
      (forkSections.getD 1 default).parent = some 0 ∧
      (forkSections.getD 2 default).parent = some 0 ∧
      (forkSections.getD 1 default).points.head? =
        (forkSections.getD 0 default).points.getLast? ∧
      (forkSections.getD 2 default).points.head? =
        (forkSections.getD 0 default).points.getLast?) := by
  constructor
  · intro pts c fuel out hok h
    obtain ⟨hai, hni⟩ := initCollection_inv pts c hok
    unfold buildSections at h
    cases hf : findFirstValid c fuel (objectKeys c.nodes) with
    | none => rw [hf] at h; cases h
    | some fv =>
      cases fv with
      | none =>
        simp only [hf] at h
        exact absurd h (by simp)
      | some pr =>
        obtain ⟨idx, children⟩ := pr
        simp only [hf] at h
        obtain ⟨hidx, hch⟩ := findFirstValid_ok c fuel hni (objectKeys c.nodes)
          idx children (fun k hk => objectKeys_mem c.nodes k hk) hf
        cases hl : sectionsLoop c.arena
            ((children.map (fun i => Entry.mk i none)).reverse) 0 [] fuel with
        | none => rw [hl] at h; cases h
        | some pr2 =>
          obtain ⟨sections, nfin⟩ := pr2
          simp only [hl] at h
          by_cases hs : sections = []
          · rw [if_pos hs] at h
            exact absurd h (by simp)
          · rw [if_neg hs] at h
            cases h
            apply sectionsLoop_c6 c.arena hai fuel _ 0 [] _ _ hl rfl
            · intro e he
              rw [List.mem_reverse] at he
              rcases List.mem_map.mp he with ⟨x, hx, hxe⟩
              obtain ⟨hxl, hxp⟩ := hai idx hidx x (hch x hx)
              refine ⟨by rw [← hxe]; exact hxl, idx, hidx,
                by rw [← hxe]; exact hxp, ?_⟩
              intro p hp
              rw [← hxe] at hp
              cases hp
            · intro q hq p hp
              exact absurd hq (by simp)
  · exact ⟨by decide, by decide, by decide, by decide, by decide⟩

/-- Witness for C6: the continuity invariant holds of the section list
reconstructed from the fork input. -/
theorem c6_first_point_continuity_witness : secInv forkSections :=
  c6_first_point_continuity.1 forkPts forkCol 100 forkSections (by decide)
    (by decide)

end MorphoViewer
